import Mathlib

set_option maxRecDepth 100000

/-!
# matrix-shareg: shared-secret registration client

A shallow embedding of `main.go`.  Go strings and byte slices are lists of
bytes (`List Nat`, every element below 256 for a real value); the conversions
`[]byte(s)` and `string(b)` are the identity.  The standard-library pieces the
program calls (`crypto/sha1`, `crypto/hmac`, `encoding/hex`, `encoding/json`,
`net/http`) are modelled next to the program's own two functions, `setMAC`
and `main`.
-/

namespace MatrixShareg

/-- Go `string` / `[]byte`: a sequence of bytes. -/
abbrev Bytes := List Nat

/-- The bytes of an ASCII string literal of the source. -/
def lit (s : String) : Bytes := s.data.map Char.toNat

/-! ## crypto/sha1 -/

/-- The function `bits.RotateLeft32` on a 32-bit word. -/
def rotl32 (x n : Nat) : Nat := ((x <<< n) ||| (x >>> (32 - n))) % 2 ^ 32

/-- Bitwise complement of a 32-bit word. -/
def not32 (x : Nat) : Nat := (2 ^ 32 - 1) ^^^ (x % 2 ^ 32)

/-- Wrapping 32-bit addition. -/
def add32 (x y : Nat) : Nat := (x + y) % 2 ^ 32

/-- The five chaining words of SHA-1. -/
structure H5 where
  h0 : Nat
  h1 : Nat
  h2 : Nat
  h3 : Nat
  h4 : Nat
deriving DecidableEq, Repr

/-- The initial chaining value (`init0 .. init4`). -/
def sha1Init : H5 := ⟨0x67452301, 0xEFCDAB89, 0x98BADCFE, 0x10325476, 0xC3D2E1F0⟩

/-- Big-endian 32-bit words of a block. -/
def beWords : Bytes → List Nat
  | a :: b :: c :: d :: rest =>
      ((a % 256) <<< 24 ||| (b % 256) <<< 16 ||| (c % 256) <<< 8 ||| (d % 256)) :: beWords rest
  | _ => []

/-- Message schedule: extends the word list (kept newest first) by `n` words,
`w[i] = rotl1 (w[i-3] ^ w[i-8] ^ w[i-14] ^ w[i-16])`. -/
def schedule : Nat → List Nat → List Nat
  | 0, rev => rev
  | n + 1, rev =>
      schedule n (rotl32 (rev.getD 2 0 ^^^ rev.getD 7 0 ^^^ rev.getD 13 0 ^^^ rev.getD 15 0) 1
        :: rev)

/-- Round function and constant of round `i`. -/
def roundFK (i b c d : Nat) : Nat × Nat :=
  if i < 20 then ((b &&& c) ||| (not32 b &&& d), 0x5A827999)
  else if i < 40 then (b ^^^ c ^^^ d, 0x6ED9EBA1)
  else if i < 60 then (((b ||| c) &&& d) ||| (b &&& c), 0x8F1BBCDC)
  else (b ^^^ c ^^^ d, 0xCA62C1D6)

/-- The eighty rounds over the schedule `ws`, starting at round `i`. -/
def rounds : Nat → List Nat → H5 → H5
  | _, [], s => s
  | i, w :: ws, ⟨a, b, c, d, e⟩ =>
      let fk := roundFK i b c d
      let t := add32 (add32 (add32 (add32 (rotl32 a 5) fk.1) e) w) fk.2
      rounds (i + 1) ws ⟨t, a, rotl32 b 30, c, d⟩

/-- Compression function `block` on one 64-byte chunk. -/
def block (h : H5) (p : Bytes) : H5 :=
  let w := (schedule 64 (beWords p).reverse).reverse
  let r := rounds 0 w h
  ⟨add32 h.h0 r.h0, add32 h.h1 r.h1, add32 h.h2 r.h2, add32 h.h3 r.h3, add32 h.h4 r.h4⟩

/-- The `sha1.digest` state: chaining value, pending bytes `x[:nx]`, and total
length written. -/
structure digest where
  h : H5
  x : Bytes
  len : Nat
deriving DecidableEq, Repr

/-- Result of `sha1.New()` / `Reset`. -/
def digest.new : digest := ⟨sha1Init, [], 0⟩

/-- Absorb one byte: buffer it and compress when the buffer reaches 64. -/
def digest.writeByte (d : digest) (b : Nat) : digest :=
  let x := d.x ++ [b]
  if x.length = 64 then ⟨block d.h x, [], d.len + 1⟩ else ⟨d.h, x, d.len + 1⟩

/-- The function `(*digest).Write`. -/
def digest.Write (d : digest) (p : Bytes) : digest := p.foldl digest.writeByte d

/-- Big-endian bytes of a word, `n` bytes wide. -/
def beBytes : Nat → Nat → Bytes
  | 0, _ => []
  | n + 1, v => (v >>> (8 * n)) % 256 :: beBytes n v

/-- Padding appended by `checkSum`: `0x80`, zeros up to 56 mod 64, then the
bit length as a 64-bit big-endian integer. -/
def sha1Pad (len : Nat) : Bytes :=
  let t := len % 64
  let zeros := if t < 56 then 55 - t else 119 - t
  0x80 :: List.replicate zeros 0 ++ beBytes 8 ((len <<< 3) % 2 ^ 64)

/-- The function `(*digest).Sum(nil)`: pads a copy of the state and returns the 20 digest
bytes. -/
def digest.Sum (d : digest) : Bytes :=
  let f := (d.Write (sha1Pad d.len)).h
  beBytes 4 f.h0 ++ beBytes 4 f.h1 ++ beBytes 4 f.h2 ++ beBytes 4 f.h3 ++ beBytes 4 f.h4

/-- The function `sha1.Sum(data)` as a byte list. -/
def sha1Sum (data : Bytes) : Bytes := (digest.new.Write data).Sum

/-! ## encoding/hex -/

/-- The table `hextable`. -/
def hextable : Bytes := lit "0123456789abcdef"

/-- The function `hex.EncodeToString`. -/
def hexEncodeToString : Bytes → Bytes
  | [] => []
  | v :: rest => hextable.getD (v >>> 4) 0 :: hextable.getD (v &&& 0x0f) 0 :: hexEncodeToString rest

/-- The function `hex.DecodeString`'s table lookup (`reverseHexTable`): the value of a hex
digit, upper or lower case. -/
def fromHexChar (c : Nat) : Option Nat :=
  if 48 ≤ c ∧ c ≤ 57 then some (c - 48)
  else if 97 ≤ c ∧ c ≤ 102 then some (c - 97 + 10)
  else if 65 ≤ c ∧ c ≤ 70 then some (c - 65 + 10)
  else none

/-- The function `hex.DecodeString`: `none` on an invalid digit or an odd length. -/
def hexDecodeString : Bytes → Option Bytes
  | [] => some []
  | [_] => none
  | p :: q :: rest =>
      match fromHexChar p, fromHexChar q, hexDecodeString rest with
      | some a, some b, some out => some (((a <<< 4) ||| b) :: out)
      | _, _, _ => none

/-! ## crypto/hmac -/

/-- The `hmac` state of `crypto/hmac`: the two pads and the running inner
hash; the outer hash is reset and refilled by `Sum`. -/
structure hmac where
  opad : Bytes
  ipad : Bytes
  inner : digest
deriving DecidableEq, Repr

/-- The key as `hmac.New` lays it into a block: hashed first when longer than
the block size, then zero-padded to 64 bytes. -/
def hmacKeyBlock (key : Bytes) : Bytes :=
  let k := if key.length > 64 then sha1Sum key else key
  k ++ List.replicate (64 - k.length) 0

/-- The function `hmac.New(sha1.New, key)`. -/
def hmacNew (key : Bytes) : hmac :=
  let ipad := (hmacKeyBlock key).map (· ^^^ 0x36)
  let opad := (hmacKeyBlock key).map (· ^^^ 0x5c)
  ⟨opad, ipad, digest.new.Write ipad⟩

/-- The function `(*hmac).Write`. -/
def hmac.Write (m : hmac) (p : Bytes) : hmac := { m with inner := m.inner.Write p }

/-- The function `(*hmac).Sum(nil)`. -/
def hmac.Sum (m : hmac) : Bytes := ((digest.new.Write m.opad).Write m.inner.Sum).Sum

/-- Reference HMAC-SHA1 of a whole message (RFC 2104):
`H((K ⊕ opad) ‖ H((K ⊕ ipad) ‖ msg))`. -/
def HMAC_SHA1 (key msg : Bytes) : Bytes :=
  sha1Sum ((hmacKeyBlock key).map (· ^^^ 0x5c) ++
    sha1Sum ((hmacKeyBlock key).map (· ^^^ 0x36) ++ msg))

/-! ## The program's data -/

/-- The `registerNonceResponse` struct. -/
structure registerNonceResponse where
  Nonce : Bytes
deriving DecidableEq, Repr

/-- The `registerRequest` struct. -/
structure registerRequest where
  Nonce : Bytes
  Username : Bytes
  DisplayName : Bytes
  Password : Bytes
  Admin : Bool
  MAC : Bytes
deriving DecidableEq, Repr

/-- The `registerResponse` struct. -/
structure registerResponse where
  AccessToken : Bytes
  UserID : Bytes
  HomeServer : Bytes
  DeviceID : Bytes
deriving DecidableEq, Repr

/-- The function `setMAC`; the package-level `secret` is passed explicitly. -/
def setMAC (secret : Bytes) (req : registerRequest) : registerRequest :=
  let mac := hmacNew secret
  let mac := mac.Write req.Nonce
  let mac := mac.Write (lit "\u0000")
  let mac := mac.Write req.Username
  let mac := mac.Write (lit "\u0000")
  let mac := mac.Write req.Password
  let mac := mac.Write (lit "\u0000")
  let mac := mac.Write (lit "notadmin")
  { req with MAC := hexEncodeToString mac.Sum }

/-- The admin literal of the registration protocol. -/
def adminLiteral (admin : Bool) : Bytes := if admin then lit "admin" else lit "notadmin"

/-! ## unicode/utf8, unicode/utf16 -/

/-- The constant `utf8.RuneError`, also `unicode.ReplacementChar`. -/
def RuneError : Nat := 0xFFFD

/-- A continuation byte within `lo .. hi`. -/
def inRange (lo hi b : Nat) : Bool := decide (lo ≤ b ∧ b ≤ hi)

/-- The function `utf8.DecodeRune`: the first rune of `p` and its width in bytes; an invalid
or short encoding gives `(RuneError, 1)`, empty input `(RuneError, 0)`. -/
def decodeRune (p : Bytes) : Nat × Nat :=
  match p with
  | [] => (RuneError, 0)
  | p0 :: t =>
    if p0 < 0x80 then (p0, 1)
    else if p0 < 0xC2 then (RuneError, 1)
    else if p0 < 0xE0 then
      match t with
      | b1 :: _ =>
        if inRange 0x80 0xBF b1 then (((p0 &&& 0x1F) <<< 6) ||| (b1 &&& 0x3F), 2)
        else (RuneError, 1)
      | _ => (RuneError, 1)
    else if p0 < 0xF0 then
      let lo := if p0 = 0xE0 then 0xA0 else 0x80
      let hi := if p0 = 0xED then 0x9F else 0xBF
      match t with
      | b1 :: b2 :: _ =>
        if inRange lo hi b1 && inRange 0x80 0xBF b2 then
          (((p0 &&& 0x0F) <<< 12) ||| ((b1 &&& 0x3F) <<< 6) ||| (b2 &&& 0x3F), 3)
        else (RuneError, 1)
      | _ => (RuneError, 1)
    else if p0 < 0xF5 then
      let lo := if p0 = 0xF0 then 0x90 else 0x80
      let hi := if p0 = 0xF4 then 0x8F else 0xBF
      match t with
      | b1 :: b2 :: b3 :: _ =>
        if inRange lo hi b1 && inRange 0x80 0xBF b2 && inRange 0x80 0xBF b3 then
          (((p0 &&& 0x07) <<< 18) ||| ((b1 &&& 0x3F) <<< 12) ||| ((b2 &&& 0x3F) <<< 6)
            ||| (b3 &&& 0x3F), 4)
        else (RuneError, 1)
      | _ => (RuneError, 1)
    else (RuneError, 1)

/-- The function `utf8.EncodeRune` / `utf8.AppendRune`; surrogates and out-of-range values
are written as `RuneError`. -/
def encodeRune (r : Nat) : Bytes :=
  if r < 0x80 then [r]
  else if r < 0x800 then [0xC0 ||| (r >>> 6), 0x80 ||| (r &&& 0x3F)]
  else if (0xD800 ≤ r ∧ r < 0xE000) ∨ 0x10FFFF < r then [0xEF, 0xBF, 0xBD]
  else if r < 0x10000 then
    [0xE0 ||| (r >>> 12), 0x80 ||| ((r >>> 6) &&& 0x3F), 0x80 ||| (r &&& 0x3F)]
  else
    [0xF0 ||| (r >>> 18), 0x80 ||| ((r >>> 12) &&& 0x3F), 0x80 ||| ((r >>> 6) &&& 0x3F),
      0x80 ||| (r &&& 0x3F)]

/-- The function `utf16.DecodeRune`: the code point of a surrogate pair, `RuneError` when
the two halves do not form one. -/
def utf16DecodeRune (r1 r2 : Nat) : Nat :=
  if 0xD800 ≤ r1 ∧ r1 < 0xDC00 ∧ 0xDC00 ≤ r2 ∧ r2 < 0xE000 then
    (((r1 - 0xD800) <<< 10) ||| (r2 - 0xDC00)) + 0x10000
  else RuneError

/-! ## encoding/json: reading -/

/-- A JSON document, strings already unquoted. -/
inductive JValue where
  | null
  | bool (b : Bool)
  | number (text : Bytes)
  | string (s : Bytes)
  | array (elems : List JValue)
  | object (members : List (Bytes × JValue))

/-- The scanner's `isSpace`. -/
def isSpace (c : Nat) : Bool := c = 0x20 || c = 0x09 || c = 0x0D || c = 0x0A

/-- Drops leading JSON white space. -/
def skipSpace : Bytes → Bytes
  | [] => []
  | c :: rest => if isSpace c then skipSpace rest else c :: rest

/-- The function `getu4`: the value of a leading `\uXXXX`, if there is one. -/
def getu4 : Bytes → Option Nat
  | 0x5C :: 0x75 :: a :: b :: c :: d :: _ =>
      match fromHexChar a, fromHexChar b, fromHexChar c, fromHexChar d with
      | some x, some y, some z, some w => some ((x <<< 12) ||| (y <<< 8) ||| (z <<< 4) ||| w)
      | _, _, _, _ => none
  | _ => none

/-- The character a one-letter escape stands for. -/
def simpleEscape (e : Nat) : Option Nat :=
  if e = 0x22 ∨ e = 0x5C ∨ e = 0x2F then some e
  else if e = 0x62 then some 0x08
  else if e = 0x66 then some 0x0C
  else if e = 0x6E then some 0x0A
  else if e = 0x72 then some 0x0D
  else if e = 0x74 then some 0x09
  else none

/-- A string literal from just after its opening quote: the scanner's
`stateInString` checks together with `unquoteBytes`.  Returns the unquoted
bytes (escapes resolved, malformed UTF-8 coerced to U+FFFD) and the input after
the closing quote; `none` on a syntax error.  The first argument is fuel: one
more than the input length is enough (`scanString_fuel`). -/
def scanString : Nat → Bytes → Bytes → Option (Bytes × Bytes)
  | 0, _, _ => none
  | fuel + 1, input, out =>
    match input with
    | [] => none
    | c :: rest =>
      if c = 0x22 then some (out, rest)
      else if c = 0x5C then
        match rest with
        | [] => none
        | e :: rest1 =>
          if e = 0x75 then
            match getu4 input with
            | none => none
            | some rr =>
              let after := rest1.drop 4
              if 0xD800 ≤ rr ∧ rr < 0xE000 then
                match getu4 after with
                | some rr1 =>
                  if utf16DecodeRune rr rr1 ≠ RuneError then
                    scanString fuel (after.drop 6) (out ++ encodeRune (utf16DecodeRune rr rr1))
                  else scanString fuel after (out ++ encodeRune RuneError)
                | none => scanString fuel after (out ++ encodeRune RuneError)
              else scanString fuel after (out ++ encodeRune rr)
          else
            match simpleEscape e with
            | some x => scanString fuel rest1 (out ++ [x])
            | none => none
      else if c < 0x20 then none
      else if c < 0x80 then scanString fuel rest (out ++ [c])
      else
        let d := decodeRune input
        scanString fuel (input.drop d.2) (out ++ encodeRune d.1)

/-- Decimal digit. -/
def isDigit (c : Nat) : Bool := decide (0x30 ≤ c ∧ c ≤ 0x39)

/-- The longest run of leading digits, and what follows it. -/
def takeDigits : Bytes → Bytes × Bytes
  | [] => ([], [])
  | c :: rest =>
    if isDigit c then ((takeDigits rest).1.cons c, (takeDigits rest).2) else ([], c :: rest)

/-- Integer part of a number: `0` or a non-zero digit followed by digits. -/
def scanInt : Bytes → Option (Bytes × Bytes)
  | [] => none
  | c :: rest =>
    if c = 0x30 then some ([c], rest)
    else if isDigit c then some (c :: (takeDigits rest).1, (takeDigits rest).2)
    else none

/-- Optional fraction: `.` and at least one digit. -/
def scanFrac : Bytes → Option (Bytes × Bytes)
  | 0x2E :: rest =>
    if (takeDigits rest).1 = [] then none
    else some (0x2E :: (takeDigits rest).1, (takeDigits rest).2)
  | input => some ([], input)

/-- Optional exponent: `e` or `E`, an optional sign, at least one digit. -/
def scanExp : Bytes → Option (Bytes × Bytes)
  | [] => some ([], [])
  | c :: rest =>
    if c = 0x65 ∨ c = 0x45 then
      match rest with
      | s :: rest1 =>
        if s = 0x2B ∨ s = 0x2D then
          if (takeDigits rest1).1 = [] then none
          else some (c :: s :: (takeDigits rest1).1, (takeDigits rest1).2)
        else if (takeDigits rest).1 = [] then none
        else some (c :: (takeDigits rest).1, (takeDigits rest).2)
      | [] => none
    else some ([], c :: rest)

/-- Optional minus sign. -/
def scanSign : Bytes → Bytes × Bytes
  | 0x2D :: rest => ([0x2D], rest)
  | input => ([], input)

/-- A number literal: its text and the input after it. -/
def scanNumber (input : Bytes) : Option (Bytes × Bytes) :=
  match scanInt (scanSign input).2 with
  | none => none
  | some (i, r1) =>
    match scanFrac r1 with
    | none => none
    | some (f, r2) =>
      match scanExp r2 with
      | none => none
      | some (e, r3) => some ((scanSign input).1 ++ i ++ f ++ e, r3)

/-- The scanner's `maxNestingDepth`. -/
def maxNestingDepth : Nat := 10000

mutual
/-- One JSON value at the head of the input (after optional white space) and
the input that follows it.  The first argument is fuel, the second the nesting
depth; twice the input length plus one is enough fuel (`parse_fuel`). -/
def parseValue : Nat → Nat → Bytes → Option (JValue × Bytes)
  | 0, _, _ => none
  | fuel + 1, depth, input =>
    match skipSpace input with
    | [] => none
    | c :: rest =>
      if c = 0x7B then
        if maxNestingDepth < depth + 1 then none
        else
          match skipSpace rest with
          | 0x7D :: rest1 => some (JValue.object [], rest1)
          | _ => parseMembers fuel (depth + 1) rest []
      else if c = 0x5B then
        if maxNestingDepth < depth + 1 then none
        else
          match skipSpace rest with
          | 0x5D :: rest1 => some (JValue.array [], rest1)
          | _ => parseElems fuel (depth + 1) rest []
      else if c = 0x22 then
        match scanString (rest.length + 1) rest [] with
        | some (s, rest1) => some (JValue.string s, rest1)
        | none => none
      else if c = 0x2D ∨ isDigit c then
        match scanNumber (c :: rest) with
        | some (n, rest1) => some (JValue.number n, rest1)
        | none => none
      else if (c :: rest).take 4 = lit "true" then some (JValue.bool true, rest.drop 3)
      else if (c :: rest).take 5 = lit "false" then some (JValue.bool false, rest.drop 4)
      else if (c :: rest).take 4 = lit "null" then some (JValue.null, rest.drop 3)
      else none
/-- The elements of an array after `[`, up to and including `]`. -/
def parseElems : Nat → Nat → Bytes → List JValue → Option (JValue × Bytes)
  | 0, _, _, _ => none
  | fuel + 1, depth, input, acc =>
    match parseValue fuel depth input with
    | none => none
    | some (v, rest) =>
      match skipSpace rest with
      | 0x2C :: rest1 => parseElems fuel depth rest1 (acc ++ [v])
      | 0x5D :: rest1 => some (JValue.array (acc ++ [v]), rest1)
      | _ => none
/-- The members of an object after `{`, up to and including `}`. -/
def parseMembers : Nat → Nat → Bytes → List (Bytes × JValue) → Option (JValue × Bytes)
  | 0, _, _, _ => none
  | fuel + 1, depth, input, acc =>
    match skipSpace input with
    | 0x22 :: rest =>
      match scanString (rest.length + 1) rest [] with
      | none => none
      | some (key, rest1) =>
        match skipSpace rest1 with
        | 0x3A :: rest2 =>
          match parseValue fuel depth rest2 with
          | none => none
          | some (v, rest3) =>
            match skipSpace rest3 with
            | 0x2C :: rest4 => parseMembers fuel depth rest4 (acc ++ [(key, v)])
            | 0x7D :: rest4 => some (JValue.object (acc ++ [(key, v)]), rest4)
            | _ => none
        | _ => none
    | _ => none
end

/-- A whole document: one value, white space around it, nothing else
(`checkValid` followed by the decoder's walk over the same text). -/
def jsonParse (data : Bytes) : Option JValue :=
  match parseValue (2 * data.length + 1) 0 data with
  | some (v, rest) => if skipSpace rest = [] then some v else none
  | none => none

/-- Errors `json.Unmarshal` returns. -/
inductive JsonError where
  /-- Go `*json.SyntaxError`: the text is not a JSON document. -/
  | SyntaxError
  /-- Go `*json.UnmarshalTypeError` with its `Value` description. -/
  | UnmarshalTypeError (value : String)
deriving DecidableEq, Repr

/-- Go `error` values the program can meet, by origin. -/
inductive error where
  /-- An error returned by `http.Get`, `http.NewRequest` or `Client.Do`. -/
  | transport (msg : Bytes)
  /-- An error returned by `io.ReadAll` on a response body. -/
  | read (msg : Bytes)
  /-- An error returned by `json.Unmarshal`. -/
  | json (e : JsonError)
deriving DecidableEq, Repr

/-- Case folding of an object key as the decoder applies it before comparing
with a field name (`foldName`): ASCII letters to upper case, U+017F (long s) to
`S`, U+212A (Kelvin sign) to `K`.  Other runes fold to non-ASCII runes and are
left as they are; they never match the ASCII field names of this program. -/
def foldName : Bytes → Bytes
  | [] => []
  | 0xC5 :: 0xBF :: rest => 0x53 :: foldName rest
  | 0xE2 :: 0x84 :: 0xAA :: rest => 0x4B :: foldName rest
  | c :: rest => (if 0x61 ≤ c ∧ c ≤ 0x7A then c - 0x20 else c) :: foldName rest

/-- Index of the struct field an object key selects: an exact match of the
`json` tag if there is one, otherwise the first match under case folding. -/
def findField (names : List Bytes) (key : Bytes) : Option Nat :=
  match names.indexOf? key with
  | some i => some i
  | none => (names.map foldName).indexOf? (foldName key)

/-- Description of a JSON value in an `UnmarshalTypeError`. -/
def JValue.kind : JValue → String
  | JValue.null => "null"
  | JValue.bool _ => "bool"
  | JValue.number _ => "number"
  | JValue.string _ => "string"
  | JValue.array _ => "array"
  | JValue.object _ => "object"

/-- Decoding a JSON value into a Go `string` field: a string is stored, `null`
leaves the field alone, anything else leaves it alone and reports a type
error. -/
def storeString (v : JValue) (old : Bytes) : Bytes × Option JsonError :=
  match v with
  | JValue.string s => (s, none)
  | JValue.null => (old, none)
  | other => (old, some (JsonError.UnmarshalTypeError other.kind))

/-- The decoder's `saveError`: only the first error is kept. -/
def saveError (saved new : Option JsonError) : Option JsonError :=
  match saved with
  | some e => some e
  | none => new

/-- Decoding the members of an object into a struct whose fields are all
strings, given as the list of `json` tags and the list of current values.
Members are taken in order, so a later duplicate overwrites an earlier one;
unknown keys are skipped. -/
def decodeMembers (names : List Bytes) :
    List (Bytes × JValue) → List Bytes × Option JsonError → List Bytes × Option JsonError
  | [], st => st
  | (key, v) :: rest, (vals, saved) =>
    match findField names key with
    | none => decodeMembers names rest (vals, saved)
    | some i =>
      let r := storeString v (vals.getD i [])
      decodeMembers names rest (vals.set i r.1, saveError saved r.2)

/-- The function `json.Unmarshal(data, &v)` for a struct `v` of string fields:
a syntax error if `data` is not one JSON document; an object is decoded member
by member; `null` is a no-op; any other value is a type error.  Returns the
field values afterwards and the error, if any. -/
def unmarshalStruct (names : List Bytes) (data : Bytes) (vals : List Bytes) :
    List Bytes × Option JsonError :=
  match jsonParse data with
  | none => (vals, some JsonError.SyntaxError)
  | some (JValue.object ms) => decodeMembers names ms (vals, none)
  | some JValue.null => (vals, none)
  | some other => (vals, some (JsonError.UnmarshalTypeError other.kind))

/-- The `json` tags of `registerNonceResponse`. -/
def nonceResponseTags : List Bytes := [lit "nonce"]

/-- The `json` tags of `registerResponse`. -/
def registerResponseTags : List Bytes :=
  [lit "access_token", lit "user_id", lit "home_server", lit "device_id"]

/-- The call `json.Unmarshal(data, nonceRes)`. -/
def unmarshalNonceResponse (data : Bytes) (v : registerNonceResponse) :
    registerNonceResponse × Option JsonError :=
  let r := unmarshalStruct nonceResponseTags data [v.Nonce]
  (⟨r.1.getD 0 []⟩, r.2)

/-- The call `json.Unmarshal(data, regRes)`. -/
def unmarshalRegisterResponse (data : Bytes) (v : registerResponse) :
    registerResponse × Option JsonError :=
  let r := unmarshalStruct registerResponseTags data
    [v.AccessToken, v.UserID, v.HomeServer, v.DeviceID]
  (⟨r.1.getD 0 [], r.1.getD 1 [], r.1.getD 2 [], r.1.getD 3 []⟩, r.2)

/-! ## encoding/json: writing -/

/-- The two hex digits of `\u00XX`. -/
def hex2 (b : Nat) : Bytes := [hextable.getD (b >>> 4) 0, hextable.getD (b &&& 0xF) 0]

/-- The body of a JSON string as `json.Marshal` writes it (`appendString` with
HTML escaping on): `"` and `\` get a backslash; backspace, form feed, newline,
carriage return and tab their letter; other control characters and `<`, `>`,
`&` become `\u00XX`; malformed UTF-8 becomes the escape of U+FFFD; U+2028 and U+2029 are
escaped; everything else is copied.  The first argument is fuel: the input
length is enough (`escapeString_fuel`). -/
def escapeString : Nat → Bytes → Bytes
  | 0, _ => []
  | _, [] => []
  | fuel + 1, b :: rest =>
    if b < 0x80 then
      (if b = 0x5C ∨ b = 0x22 then [0x5C, b]
       else if b = 0x08 then lit "\\b"
       else if b = 0x0C then lit "\\f"
       else if b = 0x0A then lit "\\n"
       else if b = 0x0D then lit "\\r"
       else if b = 0x09 then lit "\\t"
       else if b < 0x20 ∨ b = 0x3C ∨ b = 0x3E ∨ b = 0x26 then lit "\\u00" ++ hex2 b
       else [b]) ++ escapeString fuel rest
    else
      let d := decodeRune (b :: rest)
      if d.1 = RuneError ∧ d.2 = 1 then lit "\\ufffd" ++ escapeString fuel rest
      else if d.1 = 0x2028 ∨ d.1 = 0x2029 then
        lit "\\u202" ++ [hextable.getD (d.1 &&& 0xF) 0] ++ escapeString fuel ((b :: rest).drop d.2)
      else (b :: rest).take d.2 ++ escapeString fuel ((b :: rest).drop d.2)

/-- A quoted JSON string. -/
def quoteString (s : Bytes) : Bytes := [0x22] ++ escapeString s.length s ++ [0x22]

/-- The call `json.Marshal(regReq)`: the struct's fields in declaration order
under their `json` tags.  It cannot fail for this struct. -/
def marshalRegisterRequest (r : registerRequest) : Bytes :=
  lit "\x7b\"nonce\":" ++ quoteString r.Nonce ++
  lit ",\"username\":" ++ quoteString r.Username ++
  lit ",\"displayname\":" ++ quoteString r.DisplayName ++
  lit ",\"password\":" ++ quoteString r.Password ++
  lit ",\"admin\":" ++ (if r.Admin then lit "true" else lit "false") ++
  lit ",\"mac\":" ++ quoteString r.MAC ++ lit "\x7d"

/-! ## net/http and the process boundary -/

/-- The five package-level variables the flags fill in. -/
structure Config where
  homeserverURL : Bytes
  secret : Bytes
  username : Bytes
  password : Bytes
  displayName : Bytes
deriving DecidableEq, Repr

/-- An `*http.Request` as far as the program determines it. -/
structure Request where
  Method : Bytes
  URL : Bytes
  Body : Bytes
deriving DecidableEq, Repr

/-- An `*http.Response` as far as the program looks at it: the status code and
what `io.ReadAll(res.Body)` returns (the bytes read and the read error, if
any). -/
structure Response where
  StatusCode : Nat
  body : Bytes
  readErr : Option Bytes
deriving DecidableEq, Repr

/-- What the HTTP client hands back, the Go pair `(res, err)`. -/
inductive RoundTrip where
  /-- The pair `(res, nil)`. -/
  | response (res : Response)
  /-- The pair `(nil, err)`. -/
  | failure (msg : Bytes)
  /-- The pair `(res, err)` with both set: a redirect-policy failure, the body already
  closed. -/
  | failureWithResponse (res : Response) (msg : Bytes)
deriving DecidableEq, Repr

/-- The world outside the process: which URL strings `http.NewRequest` rejects
and what the transport answers to a request. -/
structure World where
  parseURL : Bytes → Option Bytes
  send : Request → RoundTrip

/-- The function `http.NewRequest(method, url, body)`: fails exactly when the
URL does not parse (the method is always a valid one here). -/
def httpNewRequest (w : World) (method url body : Bytes) : Except error Request :=
  match w.parseURL url with
  | some msg => Except.error (error.transport msg)
  | none => Except.ok ⟨method, url, body⟩

/-- The function `http.DefaultClient.Do(req)`. -/
def clientDo (w : World) (req : Request) : RoundTrip := w.send req

/-- The function `http.Get(url)`: `NewRequest("GET", url, nil)`, its error
passed on, followed by `Do`. -/
def httpGet (w : World) (url : Bytes) : RoundTrip :=
  match w.parseURL url with
  | some msg => RoundTrip.failure msg
  | none => clientDo w ⟨lit "GET", url, []⟩

/-- Calls the program makes into the HTTP client. -/
inductive HttpCall where
  | Get (url : Bytes)
  | Do (req : Request)
deriving DecidableEq, Repr

/-- How a run of `main` ends. -/
inductive Outcome where
  /-- The exit through `flag.Usage(); os.Exit(1)`. -/
  | usage
  /-- The exit through `log.Fatalln(err)`. -/
  | fatalln (err : error)
  /-- The exit through `log.Fatalf(format, string(body))`. -/
  | fatalf (format : String) (body : Bytes)
  /-- A run-time panic: nil pointer dereference. -/
  | nilDereference
  /-- The report `log.Printf("success: %+v", regRes)` and a normal return. -/
  | success (regRes : registerResponse)
deriving DecidableEq, Repr

/-- The exit status of the process. -/
def Outcome.exitCode : Outcome → Nat
  | Outcome.usage => 1
  | Outcome.fatalln _ => 1
  | Outcome.fatalf _ _ => 1
  | Outcome.nilDereference => 2
  | Outcome.success _ => 0

/-- A finished run: how it ended and the HTTP client calls it made, in
order. -/
structure Run where
  outcome : Outcome
  calls : List HttpCall
deriving DecidableEq, Repr

/-- The endpoint `fmt.Sprintf("%s/_synapse/admin/v1/register", homeserverURL)`. -/
def registerURL (c : Config) : Bytes := c.homeserverURL ++ lit "/_synapse/admin/v1/register"

/-- The second half of `main`, from `http.DefaultClient.Do(req)` on.  The
error of `Do` is overwritten unread by the next assignment; `res` is read
whatever it is. -/
def mainSubmit (w : World) (get : HttpCall) (req : Request) : Run :=
  let calls := [get, HttpCall.Do req]
  let res : Option Response :=
    match clientDo w req with
    | RoundTrip.response res => some res
    | RoundTrip.failure _ => none
    | RoundTrip.failureWithResponse res _ => some res
  match res with
  | none => ⟨Outcome.nilDereference, calls⟩
  | some res =>
    match res.readErr with
    | some msg => ⟨Outcome.fatalln (error.read msg), calls⟩
    | none =>
      if res.StatusCode ≠ 200 then ⟨Outcome.fatalf "failure: %s" res.body, calls⟩
      else
        -- Decode response
        let dec := unmarshalRegisterResponse res.body ⟨[], [], [], []⟩
        match dec.2 with
        | some e => ⟨Outcome.fatalln (error.json e), calls⟩
        | none => ⟨Outcome.success dec.1, calls⟩

/-- The function `main`, after `flag.Parse()`. -/
def main (w : World) (c : Config) : Run :=
  if c.homeserverURL = [] ∨ c.secret = [] ∨ c.username = [] ∨ c.password = [] ∨
      c.displayName = [] then
    ⟨Outcome.usage, []⟩
  else
    -- Get nonce value from register endpoint
    let get := HttpCall.Get (registerURL c)
    match httpGet w (registerURL c) with
    | RoundTrip.failure msg => ⟨Outcome.fatalln (error.transport msg), [get]⟩
    | RoundTrip.failureWithResponse _ msg => ⟨Outcome.fatalln (error.transport msg), [get]⟩
    | RoundTrip.response res =>
      match res.readErr with
      | some msg => ⟨Outcome.fatalln (error.read msg), [get]⟩
      | none =>
        if res.StatusCode ≠ 200 then ⟨Outcome.fatalf "body: %s" res.body, [get]⟩
        else
          let dec := unmarshalNonceResponse res.body ⟨[]⟩
          match dec.2 with
          | some e => ⟨Outcome.fatalln (error.json e), [get]⟩
          | none =>
            -- Create registration request + Generate MAC
            let regReq := setMAC c.secret
              { Nonce := dec.1.Nonce, Username := c.username, Password := c.password,
                DisplayName := c.displayName, Admin := false, MAC := [] }
            -- Encode registration request as JSON
            let reqJSON := marshalRegisterRequest regReq
            let dec2 := unmarshalNonceResponse res.body dec.1
            match dec2.2 with
            | some e => ⟨Outcome.fatalln (error.json e), [get]⟩
            | none =>
              -- Make register request
              match httpNewRequest w (lit "POST") (registerURL c) reqJSON with
              | Except.error e => ⟨Outcome.fatalln e, [get]⟩
              | Except.ok req => mainSubmit w get req

/-! ## Vocabulary of the specification -/

/-- All five configuration values are present. -/
def Config.complete (c : Config) : Prop :=
  c.homeserverURL ≠ [] ∧ c.secret ≠ [] ∧ c.username ≠ [] ∧ c.password ≠ [] ∧ c.displayName ≠ []

instance (c : Config) : Decidable c.complete := by
  unfold Config.complete; infer_instance

/-- The digest input of the registration protocol: four segments joined by
single NUL bytes. -/
def digestInput (nonce username password : Bytes) (admin : Bool) : Bytes :=
  nonce ++ [0x00] ++ username ++ [0x00] ++ password ++ [0x00] ++ adminLiteral admin

/-- The request `main` builds and signs for a fetched nonce. -/
def signedRequest (c : Config) (nonce : Bytes) : registerRequest :=
  { Nonce := nonce, Username := c.username, DisplayName := c.displayName,
    Password := c.password, Admin := false,
    MAC := hexEncodeToString (HMAC_SHA1 c.secret (digestInput nonce c.username c.password false)) }

/-- The POST `main` hands to the HTTP client for a fetched nonce. -/
def submitCall (c : Config) (nonce : Bytes) : Request :=
  ⟨lit "POST", registerURL c, marshalRegisterRequest (signedRequest c nonce)⟩

/-- The fetch phase succeeded: no transport or read error, status 200, body
decoded without error. -/
def fetchSucceeded (w : World) (c : Config) : Bool :=
  match httpGet w (registerURL c) with
  | RoundTrip.response res =>
    decide (res.readErr = none) && decide (res.StatusCode = 200) &&
      decide ((unmarshalNonceResponse res.body ⟨[]⟩).2 = none)
  | _ => false

/-- The POST requests among the calls of a run. -/
def posts : List HttpCall → List Request
  | [] => []
  | HttpCall.Do req :: rest => if req.Method = lit "POST" then req :: posts rest else posts rest
  | HttpCall.Get _ :: rest => posts rest

/-- Lower-case hexadecimal digit. -/
def isLowerHex (c : Nat) : Prop := (0x30 ≤ c ∧ c ≤ 0x39) ∨ (0x61 ≤ c ∧ c ≤ 0x66)

/-- The run ended in a DecodeError: `log.Fatalln` on an error of
`json.Unmarshal`. -/
def Outcome.isDecodeError : Outcome → Bool
  | Outcome.fatalln (error.json _) => true
  | _ => false

/-- The run ended in a TransportError carrying `msg`: `log.Fatalln` on the
error the HTTP client returned. -/
def Outcome.isTransportError (o : Outcome) (msg : Bytes) : Bool :=
  decide (o = Outcome.fatalln (error.transport msg))

/-- The run ended in a ProtocolError whose diagnostic text is `body`:
`log.Fatalf` with the body as the only argument of the format. -/
def Outcome.isProtocolError (o : Outcome) (body : Bytes) : Bool :=
  decide (o = Outcome.fatalf "body: %s" body) || decide (o = Outcome.fatalf "failure: %s" body)

/-- A byte that stands for itself inside a JSON string literal: printable
ASCII other than the quote and the backslash. -/
def plainByte (b : Nat) : Prop := 0x20 ≤ b ∧ b < 0x80 ∧ b ≠ 0x22 ∧ b ≠ 0x5C

instance (b : Nat) : Decidable (plainByte b) := by
  unfold plainByte; infer_instance

/-- The JSON document with the single member `nonce`, for a nonce of plain
bytes. -/
def nonceDocument (n : Bytes) : Bytes := lit "\x7b\"nonce\":\"" ++ n ++ lit "\"\x7d"

/-- A byte `json.Marshal` copies unchanged into a string literal: printable
ASCII other than the quote, the backslash and the three HTML characters. -/
def safeByte (b : Nat) : Prop :=
  0x20 ≤ b ∧ b < 0x80 ∧ b ≠ 0x22 ∧ b ≠ 0x5C ∧ b ≠ 0x3C ∧ b ≠ 0x3E ∧ b ≠ 0x26

instance (b : Nat) : Decidable (safeByte b) := by
  unfold safeByte; infer_instance

/-- A Unicode scalar value: a code point up to U+10FFFF that is not a
surrogate. -/
def isScalar (r : Nat) : Prop := r < 0xD800 ∨ (0xE000 ≤ r ∧ r ≤ 0x10FFFF)

instance (r : Nat) : Decidable (isScalar r) := by
  unfold isScalar; infer_instance

/-- The UTF-8 encoding of a sequence of code points. -/
def utf8Encode : List Nat → Bytes
  | [] => []
  | r :: rest => encodeRune r ++ utf8Encode rest

/-- Valid UTF-8 (`utf8.Valid`): the encoding of a sequence of scalar
values. -/
def ValidUTF8 (s : Bytes) : Prop := ∃ runes, (∀ r ∈ runes, isScalar r) ∧ utf8Encode runes = s

/-- What `escapeString` writes for one scalar value. -/
def escapeRune (r : Nat) : Bytes :=
  if r < 0x80 then
    if r = 0x5C ∨ r = 0x22 then [0x5C, r]
    else if r = 0x08 then lit "\\b"
    else if r = 0x0C then lit "\\f"
    else if r = 0x0A then lit "\\n"
    else if r = 0x0D then lit "\\r"
    else if r = 0x09 then lit "\\t"
    else if r < 0x20 ∨ r = 0x3C ∨ r = 0x3E ∨ r = 0x26 then lit "\\u00" ++ hex2 r
    else [r]
  else if r = 0x2028 ∨ r = 0x2029 then lit "\\u202" ++ [hextable.getD (r &&& 0xF) 0]
  else encodeRune r

/-- A JSON value a Go `string` field takes without complaint: a string or
`null`. -/
def JValue.isStringOrNull : JValue → Bool
  | JValue.string _ => true
  | JValue.null => true
  | _ => false

/-- The bodies the amended decoding rule rejects, for a struct of string fields
with the given `json` tags: text that is not valid JSON, a document other than
an object or `null`, and an object in which a member that selects a field holds
something other than a string or `null`. -/
def decodeRejects (names : List Bytes) (body : Bytes) : Bool :=
  match jsonParse body with
  | none => true
  | some (JValue.object ms) =>
    ms.any (fun m => (findField names m.1).isSome && !m.2.isStringOrNull)
  | some JValue.null => false
  | some _ => true

/-- The body has no member for field `i`: it is `null`, or an object none of
whose members selects the field. -/
def lacksField (names : List Bytes) (body : Bytes) (i : Nat) : Prop :=
  jsonParse body = some JValue.null ∨
    ∃ ms, jsonParse body = some (JValue.object ms) ∧ ∀ m ∈ ms, findField names m.1 ≠ some i

/-! ## Sample runs -/

/-- A complete configuration. -/
def sampleConfig : Config := ⟨lit "https://hs.example", lit "k", lit "bob", lit "pw", lit "Bob B"⟩

/-- A nonce response of the server. -/
def nonceBody : Bytes := lit "\x7b\"nonce\":\"n1\"\x7d"

/-- A registration response of the server. -/
def successBody : Bytes :=
  lit ("\x7b\"access_token\":\"t\",\"user_id\":\"@bob:example.org\"," ++
    "\"home_server\":\"example.org\",\"device_id\":\"d1\"\x7d")

/-- An empty JSON object. -/
def emptyObject : Bytes := lit "\x7b\x7d"

/-- A world in which every URL parses, a GET is answered by `get` and any other
request by `post`. -/
def world (get post : RoundTrip) : World :=
  ⟨fun _ => none, fun req => if req.Method = lit "GET" then get else post⟩

/-- A plain response: status, body, no read error. -/
def reply (status : Nat) (body : Bytes) : RoundTrip := RoundTrip.response ⟨status, body, none⟩

/-- The JSON document `null`. -/
def nullBody : Bytes := lit "null"

/-- A nonce response whose `nonce` member is a number. -/
def numberNonceBody : Bytes := lit "\x7b\"nonce\":5\x7d"

/-- A registration response with only the `access_token` member. -/
def tokenOnlyBody : Bytes := lit "\x7b\"access_token\":\"t\"\x7d"

/-- A complete configuration whose password needs escaping: `p"w<é`, with a
quote, an HTML character and a two-byte rune. -/
def escapingConfig : Config :=
  ⟨lit "https://hs.example", lit "k", lit "bob", [0x70, 0x22, 0x77, 0x3C, 0xC3, 0xA9],
    lit "Bob B"⟩

/-- A complete configuration whose username is not valid UTF-8: the single
byte 0xFF. -/
def malformedConfig : Config :=
  ⟨lit "https://hs.example", lit "k", [0xFF], lit "pw", lit "Bob B"⟩

/-! ## Lemmas: hashing -/

theorem digest_Write_append (d : digest) (a b : Bytes) :
    (d.Write a).Write b = d.Write (a ++ b) := by
  simp [digest.Write, List.foldl_append]

theorem hmac_Write_append (m : hmac) (a b : Bytes) :
    (m.Write a).Write b = m.Write (a ++ b) := by
  simp [hmac.Write, digest_Write_append]

/-- Streaming HMAC agrees with the one-shot reference. -/
theorem hmac_Sum_eq (key msg : Bytes) : ((hmacNew key).Write msg).Sum = HMAC_SHA1 key msg := by
  simp [hmac.Sum, hmac.Write, hmacNew, HMAC_SHA1, sha1Sum, digest_Write_append]

theorem lit_nul : lit "\u0000" = [0x00] := by decide

/-- The mac `setMAC` computes, as one digest over one message. -/
theorem setMAC_MAC (secret : Bytes) (req : registerRequest) :
    (setMAC secret req).MAC = hexEncodeToString (HMAC_SHA1 secret
      (req.Nonce ++ [0x00] ++ req.Username ++ [0x00] ++ req.Password ++ [0x00] ++
        lit "notadmin")) := by
  simp only [setMAC, hmac_Write_append, hmac_Sum_eq, lit_nul]

theorem beBytes_length (n v : Nat) : (beBytes n v).length = n := by
  induction n with
  | zero => rfl
  | succ k ih => simp [beBytes, ih]

theorem beBytes_lt (n v : Nat) : ∀ b ∈ beBytes n v, b < 256 := by
  induction n with
  | zero => simp [beBytes]
  | succ k ih =>
    intro b hb
    simp only [beBytes, List.mem_cons] at hb
    rcases hb with rfl | hb
    · exact Nat.mod_lt _ (by decide)
    · exact ih b hb

theorem digest_Sum_length (d : digest) : d.Sum.length = 20 := by
  simp [digest.Sum, beBytes_length]

theorem digest_Sum_lt (d : digest) : ∀ b ∈ d.Sum, b < 256 := by
  intro b hb
  simp only [digest.Sum, List.mem_append] at hb
  rcases hb with (((hb | hb) | hb) | hb) | hb <;> exact beBytes_lt _ _ b hb

theorem HMAC_SHA1_length (key msg : Bytes) : (HMAC_SHA1 key msg).length = 20 :=
  digest_Sum_length _

theorem HMAC_SHA1_lt (key msg : Bytes) : ∀ b ∈ HMAC_SHA1 key msg, b < 256 :=
  digest_Sum_lt _

/-! ## Lemmas: hexadecimal -/

theorem hexEncodeToString_length (l : Bytes) : (hexEncodeToString l).length = 2 * l.length := by
  induction l with
  | nil => rfl
  | cons v rest ih => simp [hexEncodeToString, ih]; omega

theorem hex_byte_facts : ∀ v, v < 256 →
    isLowerHex (hextable.getD (v >>> 4) 0) ∧ isLowerHex (hextable.getD (v &&& 0x0f) 0) ∧
    fromHexChar (hextable.getD (v >>> 4) 0) = some (v >>> 4) ∧
    fromHexChar (hextable.getD (v &&& 0x0f) 0) = some (v &&& 0x0f) ∧
    ((v >>> 4) <<< 4) ||| (v &&& 0x0f) = v := by
  unfold isLowerHex
  decide

theorem hexEncodeToString_lower (l : Bytes) (hl : ∀ b ∈ l, b < 256) :
    ∀ c ∈ hexEncodeToString l, isLowerHex c := by
  induction l with
  | nil => simp [hexEncodeToString]
  | cons v rest ih =>
    intro c hc
    have hv := hex_byte_facts v (hl v (List.mem_cons_self _ _))
    simp only [hexEncodeToString, List.mem_cons] at hc
    rcases hc with rfl | rfl | hc
    · exact hv.1
    · exact hv.2.1
    · exact ih (fun b hb => hl b (List.mem_cons_of_mem _ hb)) c hc

theorem hexDecode_hexEncode (l : Bytes) (hl : ∀ b ∈ l, b < 256) :
    hexDecodeString (hexEncodeToString l) = some l := by
  induction l with
  | nil => rfl
  | cons v rest ih =>
    have hv := hex_byte_facts v (hl v (List.mem_cons_self _ _))
    have hr := ih (fun b hb => hl b (List.mem_cons_of_mem _ hb))
    simp only [hexEncodeToString, hexDecodeString, hv.2.2.1, hv.2.2.2.1, hr, hv.2.2.2.2]

/-! ## Lemmas: the parser and its fuel -/

theorem skipSpace_length (i : Bytes) : (skipSpace i).length ≤ i.length := by
  induction i with
  | nil => simp [skipSpace]
  | cons c rest ih =>
    unfold skipSpace
    split
    · simp only [List.length_cons]; omega
    · exact Nat.le_refl _

theorem scanString_length : ∀ (fuel : Nat) (i out s r : Bytes),
    scanString fuel i out = some (s, r) → r.length < i.length := by
  intro fuel
  induction fuel with
  | zero => intro i out s r h; simp [scanString] at h
  | succ f ih =>
    intro i out s r h
    unfold scanString at h
    dsimp only at h
    repeat' split at h
    all_goals first
      | (cases h; done)
      | (have hlen := ih _ _ _ _ h
         simp only [List.length_drop, List.length_cons] at hlen ⊢
         omega)
      | (cases h; simp)

theorem takeDigits_length (i : Bytes) : (takeDigits i).2.length ≤ i.length := by
  induction i with
  | nil => simp [takeDigits]
  | cons c rest ih =>
    unfold takeDigits
    split
    · simp only [List.length_cons]; omega
    · exact Nat.le_refl _

theorem scanInt_length (i n r : Bytes) (h : scanInt i = some (n, r)) : r.length < i.length := by
  unfold scanInt at h
  repeat' split at h
  all_goals first
    | (cases h; done)
    | (cases h; simp; done)
    | (cases h; exact Nat.lt_of_le_of_lt (takeDigits_length _) (by simp only [List.length_cons]; omega))

theorem scanFrac_length (i n r : Bytes) (h : scanFrac i = some (n, r)) : r.length ≤ i.length := by
  unfold scanFrac at h
  repeat' split at h
  all_goals first
    | (cases h; done)
    | (cases h; exact Nat.le_refl _)
    | (cases h; exact Nat.le_trans (takeDigits_length _) (by simp only [List.length_cons]; omega))

theorem scanExp_length (i n r : Bytes) (h : scanExp i = some (n, r)) : r.length ≤ i.length := by
  unfold scanExp at h
  repeat' split at h
  all_goals first
    | (cases h; done)
    | (cases h; exact Nat.le_refl _)
    | (cases h; exact Nat.le_trans (takeDigits_length _) (by simp only [List.length_cons]; omega))

theorem scanSign_length (i : Bytes) : (scanSign i).2.length ≤ i.length := by
  unfold scanSign
  split
  · simp
  · exact Nat.le_refl _

theorem scanNumber_length (i n r : Bytes) (h : scanNumber i = some (n, r)) :
    r.length < i.length := by
  unfold scanNumber at h
  split at h
  · cases h
  · rename_i a r1 h1
    split at h
    · cases h
    · rename_i b r2 h2
      split at h
      · cases h
      · rename_i e r3 h3
        simp only [Option.some.injEq, Prod.mk.injEq] at h
        obtain ⟨_, rfl⟩ := h
        have k1 := scanInt_length _ _ _ h1
        have k2 := scanFrac_length _ _ _ h2
        have k3 := scanExp_length _ _ _ h3
        have k0 := scanSign_length i
        omega

theorem skipSpace_cons_length (i rest : Bytes) (c : Nat) (h : skipSpace i = c :: rest) :
    rest.length < i.length := by
  have := skipSpace_length i
  rw [h] at this
  simp only [List.length_cons] at this
  omega

/-- Every successful parse consumes at least one byte. -/
theorem parse_length : ∀ (fuel : Nat),
    (∀ d i v r, parseValue fuel d i = some (v, r) → r.length < i.length) ∧
    (∀ d i acc v r, parseElems fuel d i acc = some (v, r) → r.length < i.length) ∧
    (∀ d i acc v r, parseMembers fuel d i acc = some (v, r) → r.length < i.length) := by
  intro fuel
  induction fuel with
  | zero =>
    refine ⟨?_, ?_, ?_⟩
    · intro d i v r h; simp [parseValue] at h
    · intro d i acc v r h; simp [parseElems] at h
    · intro d i acc v r h; simp [parseMembers] at h
  | succ f ih =>
    obtain ⟨ihV, ihE, ihM⟩ := ih
    refine ⟨?_, ?_, ?_⟩
    · intro d i v r h
      unfold parseValue at h
      split at h
      · cases h
      · rename_i c rest hsk
        have hs := skipSpace_cons_length _ _ _ hsk
        repeat' split at h
        all_goals first
          | (cases h; done)
          | (have hlen := ihM _ _ _ _ _ h; omega)
          | (have hlen := ihE _ _ _ _ _ h; omega)
          | (rename_i hh; have := skipSpace_cons_length _ _ _ hh; cases h; omega)
          | (rename_i hh; have := scanString_length _ _ _ _ _ hh; cases h; omega)
          | (rename_i hh; have := scanNumber_length _ _ _ hh; cases h
             simp only [List.length_cons] at this; omega)
          | (cases h; simp only [List.length_drop]; omega)
    · intro d i acc v r h
      unfold parseElems at h
      split at h
      · cases h
      · rename_i v1 rest hv
        have h1 := ihV _ _ _ _ hv
        repeat' split at h
        all_goals first
          | (cases h; done)
          | (rename_i hh; have := skipSpace_cons_length _ _ _ hh; have := ihE _ _ _ _ _ h; omega)
          | (rename_i hh; have := skipSpace_cons_length _ _ _ hh; cases h; omega)
    · intro d i acc v r h
      unfold parseMembers at h
      split at h
      · rename_i rest hsk
        have h0 := skipSpace_cons_length _ _ _ hsk
        split at h
        · cases h
        · rename_i key rest1 hk
          have h1 := scanString_length _ _ _ _ _ hk
          split at h
          · rename_i rest2 hc
            have h2 := skipSpace_cons_length _ _ _ hc
            split at h
            · cases h
            · rename_i v1 rest3 hv
              have h3 := ihV _ _ _ _ hv
              repeat' split at h
              all_goals first
                | (cases h; done)
                | (rename_i hh; have := skipSpace_cons_length _ _ _ hh
                   have := ihM _ _ _ _ _ h; omega)
                | (rename_i hh; have := skipSpace_cons_length _ _ _ hh; cases h; omega)
          · cases h
      · cases h

/-- Fuel beyond twice the input length does not change the result. -/
theorem parse_fuel : ∀ (f : Nat),
    (∀ g d i, 2 * i.length + 1 ≤ f → f ≤ g → parseValue g d i = parseValue f d i) ∧
    (∀ g d i acc, 2 * i.length + 2 ≤ f → f ≤ g → parseElems g d i acc = parseElems f d i acc) ∧
    (∀ g d i acc, 2 * i.length + 2 ≤ f → f ≤ g →
      parseMembers g d i acc = parseMembers f d i acc) := by
  intro f
  induction f with
  | zero =>
    refine ⟨?_, ?_, ?_⟩ <;> intros <;> omega
  | succ f ih =>
    obtain ⟨ihV, ihE, ihM⟩ := ih
    refine ⟨?_, ?_, ?_⟩
    · intro g d i hb hg
      obtain ⟨g1, rfl⟩ : ∃ g1, g = g1 + 1 := ⟨g - 1, by omega⟩
      unfold parseValue
      cases hsk : skipSpace i with
      | nil => rfl
      | cons c rest =>
        have hs := skipSpace_cons_length _ _ _ hsk
        simp only
        rw [ihM g1 (d + 1) rest [] (by omega) (by omega),
          ihE g1 (d + 1) rest [] (by omega) (by omega)]
    · intro g d i acc hb hg
      obtain ⟨g1, rfl⟩ : ∃ g1, g = g1 + 1 := ⟨g - 1, by omega⟩
      unfold parseElems
      rw [ihV g1 d i (by omega) (by omega)]
      cases hv : parseValue f d i with
      | none => rfl
      | some p =>
        obtain ⟨v, rest⟩ := p
        have h1 := (parse_length f).1 _ _ _ _ hv
        simp only
        split
        · rename_i rest1 hh
          have := skipSpace_cons_length _ _ _ hh
          exact ihE g1 d rest1 _ (by omega) (by omega)
        · rfl
        · rfl
    · intro g d i acc hb hg
      obtain ⟨g1, rfl⟩ : ∃ g1, g = g1 + 1 := ⟨g - 1, by omega⟩
      unfold parseMembers
      split
      · rename_i rest hsk
        have h0 := skipSpace_cons_length _ _ _ hsk
        split
        · rfl
        · rename_i key rest1 hk
          have h1 := scanString_length _ _ _ _ _ hk
          split
          · rename_i rest2 hc
            have h2 := skipSpace_cons_length _ _ _ hc
            rw [ihV g1 d rest2 (by omega) (by omega)]
            cases hv : parseValue f d rest2 with
            | none => rfl
            | some p =>
              obtain ⟨v, rest3⟩ := p
              have h3 := (parse_length f).1 _ _ _ _ hv
              simp only
              split
              · rename_i rest4 hh
                have := skipSpace_cons_length _ _ _ hh
                exact ihM g1 d rest4 _ (by omega) (by omega)
              · rfl
              · rfl
          · rfl
      · rfl

theorem decodeRune_size_pos (c : Nat) (rest : Bytes) : 1 ≤ (decodeRune (c :: rest)).2 := by
  unfold decodeRune
  dsimp only
  repeat' split
  all_goals simp

/-- Fuel beyond the input length does not change what `scanString` returns. -/
theorem scanString_fuel : ∀ (f g : Nat) (i out : Bytes), i.length < f → f ≤ g →
    scanString g i out = scanString f i out := by
  intro f
  induction f with
  | zero => intros; omega
  | succ f ih =>
    intro g i out hb hg
    obtain ⟨g1, rfl⟩ : ∃ g1, g = g1 + 1 := ⟨g - 1, by omega⟩
    unfold scanString
    dsimp only
    repeat' split
    all_goals first
      | rfl
      | (apply ih
         · simp only [List.length_drop, List.length_cons] at hb ⊢; omega
         · omega)
      | (apply ih
         · simp only [List.length_drop, List.length_cons] at hb ⊢
           exact Nat.lt_of_le_of_lt (Nat.sub_le_sub_left (decodeRune_size_pos _ _) _)
             (by simp only [Nat.add_sub_cancel]; omega)
         · omega)

/-- Fuel beyond the input length does not change what `escapeString` returns. -/
theorem escapeString_fuel : ∀ (f g : Nat) (i : Bytes), i.length ≤ f → f ≤ g →
    escapeString g i = escapeString f i := by
  intro f
  induction f with
  | zero =>
    intro g i hb hg
    have : i = [] := List.length_eq_zero.mp (by omega)
    subst this
    cases g <;> simp [escapeString]
  | succ f ih =>
    intro g i hb hg
    obtain ⟨g1, rfl⟩ : ∃ g1, g = g1 + 1 := ⟨g - 1, by omega⟩
    cases i with
    | nil => simp [escapeString]
    | cons b rest =>
      have hd := decodeRune_size_pos b rest
      simp only [List.length_cons] at hb
      unfold escapeString
      dsimp only
      rw [ih g1 rest (by omega) (by omega),
        ih g1 ((b :: rest).drop (decodeRune (b :: rest)).2)
          (by simp only [List.length_drop, List.length_cons]; omega) (by omega)]

theorem scanString_plain (n : Bytes) (hn : ∀ b ∈ n, plainByte b) :
    ∀ (f : Nat) (out rest : Bytes), n.length < f →
      scanString f (n ++ 0x22 :: rest) out = some (out ++ n, rest) := by
  induction n with
  | nil =>
    intro f out rest hf
    obtain ⟨f1, rfl⟩ : ∃ f1, f = f1 + 1 := ⟨f - 1, by omega⟩
    simp [scanString]
  | cons b n ih =>
    intro f out rest hf
    obtain ⟨f1, rfl⟩ : ∃ f1, f = f1 + 1 := ⟨f - 1, by simp at hf; omega⟩
    have hb : plainByte b := hn b (List.mem_cons_self _ _)
    obtain ⟨h1, h2, h3, h4⟩ := hb
    have h5 : ¬ b < 0x20 := by omega
    simp only [List.cons_append, scanString, h3, h4, h5, h2, if_false, if_true]
    rw [ih (fun x hx => hn x (List.mem_cons_of_mem _ hx)) f1 _ rest
      (by simp only [List.length_cons] at hf; omega)]
    simp

theorem parse_nonceDocument (n : Bytes) (hn : ∀ b ∈ n, plainByte b) :
    jsonParse (nonceDocument n) = some (JValue.object [(lit "nonce", JValue.string n)]) := by
  have hA : ∀ k, parseValue (k + 1) 1 (0x22 :: (n ++ [0x22, 0x7D])) =
      some (JValue.string n, [0x7D]) := by
    intro k
    have hs := scanString_plain n hn (n.length + 2 + 1) [] [0x7D] (by omega)
    simp only [List.nil_append] at hs
    simp [parseValue, skipSpace, isSpace, hs]
  have hkey : ∀ (f : Nat) (rest : Bytes), 5 < f →
      scanString f (0x6E :: 0x6F :: 0x6E :: 0x63 :: 0x65 :: 0x22 :: rest) [] =
        some (lit "nonce", rest) := by
    intro f rest hf
    exact scanString_plain (lit "nonce") (by decide) f [] rest hf
  have hB : ∀ k, parseMembers (k + 2) 1
      (0x22 :: 0x6E :: 0x6F :: 0x6E :: 0x63 :: 0x65 :: 0x22 :: 0x3A :: 0x22 ::
        (n ++ [0x22, 0x7D])) [] =
      some (JValue.object [(lit "nonce", JValue.string n)], []) := by
    intro k
    simp [parseMembers, skipSpace, isSpace, hkey, hA]
  have hl1 : lit "\x7b\"nonce\":\"" =
      [0x7B, 0x22, 0x6E, 0x6F, 0x6E, 0x63, 0x65, 0x22, 0x3A, 0x22] := by decide
  have hl2 : lit "\"\x7d" = [0x22, 0x7D] := by decide
  unfold jsonParse nonceDocument
  rw [hl1, hl2]
  obtain ⟨k, hk⟩ : ∃ k, 2 * ([0x7B, 0x22, 0x6E, 0x6F, 0x6E, 0x63, 0x65, 0x22, 0x3A, 0x22] ++ n ++
      [0x22, 0x7D]).length + 1 = k + 3 := ⟨2 * n.length + 22, by simp; omega⟩
  rw [hk]
  simp [parseValue, skipSpace, isSpace, maxNestingDepth, hB]

/-- A nonce of plain bytes, sent as the document `nonceDocument n`, is decoded
to exactly `n`. -/
theorem unmarshalNonceResponse_document (n : Bytes) (hn : ∀ b ∈ n, plainByte b) :
    unmarshalNonceResponse (nonceDocument n) ⟨[]⟩ = (⟨n⟩, none) := by
  simp only [unmarshalNonceResponse, unmarshalStruct, parse_nonceDocument n hn]
  have hf : findField nonceResponseTags (lit "nonce") = some 0 := by decide
  simp [decodeMembers, hf, storeString, saveError]

/-- The fuel `jsonParse` gives the parser is enough: more fuel gives the same
result. -/
theorem jsonParse_fuel (data : Bytes) (g : Nat) (hg : 2 * data.length + 1 ≤ g) :
    parseValue g 0 data = parseValue (2 * data.length + 1) 0 data :=
  (parse_fuel (2 * data.length + 1)).1 g 0 data (Nat.le_refl _) hg

/-! ## Lemmas: encoding -/

theorem escapeString_safe (s : Bytes) (hs : ∀ b ∈ s, safeByte b) :
    ∀ f, s.length ≤ f → escapeString f s = s := by
  induction s with
  | nil => intro f _; cases f <;> simp [escapeString]
  | cons b rest ih =>
    intro f hf
    obtain ⟨f1, rfl⟩ : ∃ f1, f = f1 + 1 := ⟨f - 1, by simp at hf; omega⟩
    obtain ⟨h1, h2, h3, h4, h5, h6, h7⟩ := hs b (List.mem_cons_self _ _)
    have hr := ih (fun x hx => hs x (List.mem_cons_of_mem _ hx)) f1
      (by simp only [List.length_cons] at hf; omega)
    have e1 : ¬ (b = 0x5C ∨ b = 0x22) := by omega
    have e2 : ¬ b = 0x08 := by omega
    have e3 : ¬ b = 0x0C := by omega
    have e4 : ¬ b = 0x0A := by omega
    have e5 : ¬ b = 0x0D := by omega
    have e6 : ¬ b = 0x09 := by omega
    have e7 : ¬ (b < 0x20 ∨ b = 0x3C ∨ b = 0x3E ∨ b = 0x26) := by omega
    simp only [escapeString, h2, if_true, e1, e2, e3, e4, e5, e6, e7, if_false, hr,
      List.singleton_append]

theorem quoteString_safe (s : Bytes) (hs : ∀ b ∈ s, safeByte b) :
    quoteString s = [0x22] ++ s ++ [0x22] := by
  unfold quoteString
  rw [escapeString_safe s hs s.length (Nat.le_refl _)]

theorem safeByte_of_isLowerHex (b : Nat) (h : isLowerHex b) : safeByte b := by
  unfold isLowerHex at h
  unfold safeByte
  omega

/-! ## Lemmas: decoding -/

theorem storeString_err_indep (v : JValue) (old old2 : Bytes) :
    (storeString v old).2 = (storeString v old2).2 := by
  cases v <;> rfl

theorem decodeMembers_err_indep (names : List Bytes) (ms : List (Bytes × JValue)) :
    ∀ (vals vals2 : List Bytes) (saved : Option JsonError),
      (decodeMembers names ms (vals, saved)).2 = (decodeMembers names ms (vals2, saved)).2 := by
  induction ms with
  | nil => intro vals vals2 saved; rfl
  | cons m rest ih =>
    intro vals vals2 saved
    obtain ⟨key, v⟩ := m
    simp only [decodeMembers]
    cases findField names key with
    | none => exact ih vals vals2 saved
    | some i =>
      simp only
      rw [storeString_err_indep v (vals.getD i []) (vals2.getD i [])]
      exact ih _ _ _

/-- Whether `json.Unmarshal` reports an error depends on the text only, not on
what the target struct held before. -/
theorem unmarshalStruct_err_indep (names : List Bytes) (data : Bytes) (vals vals2 : List Bytes) :
    (unmarshalStruct names data vals).2 = (unmarshalStruct names data vals2).2 := by
  unfold unmarshalStruct
  cases jsonParse data with
  | none => rfl
  | some v =>
    cases v with
    | object ms => exact decodeMembers_err_indep names ms vals vals2 none
    | _ => rfl

theorem unmarshalNonceResponse_err_indep (data : Bytes) (v v2 : registerNonceResponse) :
    (unmarshalNonceResponse data v).2 = (unmarshalNonceResponse data v2).2 :=
  unmarshalStruct_err_indep _ _ _ _

/-- Members that select no field leave the struct and the saved error as they
were. -/
theorem decodeMembers_absent (names : List Bytes) (ms : List (Bytes × JValue))
    (h : ∀ m ∈ ms, findField names m.1 = none) (st : List Bytes × Option JsonError) :
    decodeMembers names ms st = st := by
  induction ms generalizing st with
  | nil => rfl
  | cons m rest ih =>
    obtain ⟨key, v⟩ := m
    obtain ⟨vals, saved⟩ := st
    have hk : findField names key = none := h (key, v) (List.mem_cons_self _ _)
    simp only [decodeMembers, hk]
    exact ih (fun m hm => h m (List.mem_cons_of_mem _ hm)) _

/-- A field no member selects keeps its value. -/
theorem decodeMembers_getD (names : List Bytes) (i : Nat) (ms : List (Bytes × JValue))
    (h : ∀ m ∈ ms, findField names m.1 ≠ some i) :
    ∀ (vals : List Bytes) (saved : Option JsonError),
      (decodeMembers names ms (vals, saved)).1.getD i [] = vals.getD i [] := by
  induction ms with
  | nil => intro vals saved; rfl
  | cons m rest ih =>
    intro vals saved
    obtain ⟨key, v⟩ := m
    have hk : findField names key ≠ some i := h (key, v) (List.mem_cons_self _ _)
    have hrest := ih (fun m hm => h m (List.mem_cons_of_mem _ hm))
    simp only [decodeMembers]
    cases hf : findField names key with
    | none => exact hrest vals saved
    | some j =>
      simp only
      rw [hrest]
      have hji : j ≠ i := fun e => hk (by rw [hf, e])
      simp [List.getD_eq_getElem?_getD, List.getElem?_set_ne hji]

/-- When every member that selects a field holds a string or `null`, decoding
reports no error. -/
theorem decodeMembers_no_error (names : List Bytes) (ms : List (Bytes × JValue))
    (h : ∀ m ∈ ms, findField names m.1 ≠ none → (storeString m.2 []).2 = none) :
    ∀ (vals : List Bytes), (decodeMembers names ms (vals, none)).2 = none := by
  induction ms with
  | nil => intro vals; rfl
  | cons m rest ih =>
    intro vals
    obtain ⟨key, v⟩ := m
    have hrest := ih (fun m hm => h m (List.mem_cons_of_mem _ hm))
    simp only [decodeMembers]
    cases hf : findField names key with
    | none => exact hrest vals
    | some j =>
      simp only
      have hs : (storeString v []).2 = none :=
        h (key, v) (List.mem_cons_self _ _) (by simp [hf])
      rw [storeString_err_indep v (vals.getD j []) [], hs]
      exact hrest _

/-- An error once saved is the one reported. -/
theorem decodeMembers_saved (names : List Bytes) (ms : List (Bytes × JValue)) :
    ∀ (vals : List Bytes) (e : JsonError),
      (decodeMembers names ms (vals, some e)).2 = some e := by
  induction ms with
  | nil => intro vals e; rfl
  | cons m rest ih =>
    intro vals e
    obtain ⟨key, v⟩ := m
    simp only [decodeMembers]
    cases findField names key with
    | none => exact ih vals e
    | some i => exact ih _ e

/-- A member that selects a field and holds neither a string nor `null` makes
decoding report an error. -/
theorem decodeMembers_error (names : List Bytes) (ms : List (Bytes × JValue))
    (h : ∃ m ∈ ms, findField names m.1 ≠ none ∧ (storeString m.2 []).2 ≠ none) :
    ∀ (vals : List Bytes) (saved : Option JsonError),
      (decodeMembers names ms (vals, saved)).2 ≠ none := by
  induction ms with
  | nil => obtain ⟨m, hm, _⟩ := h; cases hm
  | cons m rest ih =>
    intro vals saved
    cases saved with
    | some e => rw [decodeMembers_saved]; simp
    | none =>
      obtain ⟨key, v⟩ := m
      simp only [decodeMembers]
      obtain ⟨m1, hm1, hf1, hs1⟩ := h
      cases hf : findField names key with
      | none =>
        simp only
        rcases List.mem_cons.mp hm1 with rfl | hin
        · exact absurd hf hf1
        · exact ih ⟨m1, hin, hf1, hs1⟩ _ _
      | some i =>
        simp only
        rcases List.mem_cons.mp hm1 with rfl | hin
        · rw [storeString_err_indep v (vals.getD i []) []]
          cases hv : (storeString v []).2 with
          | none => exact absurd hv hs1
          | some e => simp only [saveError]; rw [decodeMembers_saved]; simp
        · exact ih ⟨m1, hin, hf1, hs1⟩ _ _

/-! ## Lemmas: the decoding rule -/

theorem storeString_ok_iff (v : JValue) (old : Bytes) :
    (storeString v old).2 = none ↔ v.isStringOrNull = true := by
  cases v <;> simp [storeString, JValue.isStringOrNull]

/-- The rule `decodeRejects` describes exactly when `json.Unmarshal` reports an
error. -/
theorem unmarshalStruct_error_iff (names : List Bytes) (body : Bytes) (vals : List Bytes) :
    (unmarshalStruct names body vals).2 = none ↔ decodeRejects names body = false := by
  unfold unmarshalStruct decodeRejects
  cases hp : jsonParse body with
  | none => simp
  | some v =>
    cases v with
    | object ms =>
      simp only
      constructor
      · intro h
        by_contra hne
        have hany : ms.any (fun m => (findField names m.1).isSome && !m.2.isStringOrNull)
            = true := by
          cases hb : ms.any (fun m => (findField names m.1).isSome && !m.2.isStringOrNull)
          · exact absurd hb hne
          · rfl
        obtain ⟨m, hm, hcond⟩ := List.any_eq_true.mp hany
        simp only [Bool.and_eq_true, Bool.not_eq_true', Option.isSome_iff_ne_none] at hcond
        refine decodeMembers_error names ms ⟨m, hm, hcond.1, ?_⟩ vals none h
        intro hs
        rw [storeString_ok_iff] at hs
        rw [hs] at hcond
        exact absurd hcond.2 (by simp)
      · intro h
        apply decodeMembers_no_error
        intro m hm hf
        rw [storeString_ok_iff]
        cases hs : m.2.isStringOrNull
        · exfalso
          have : ms.any (fun m => (findField names m.1).isSome && !m.2.isStringOrNull)
              = true :=
            List.any_eq_true.mpr ⟨m, hm, by
              simp only [Bool.and_eq_true, Bool.not_eq_true', Option.isSome_iff_ne_none]
              exact ⟨hf, hs⟩⟩
          rw [this] at h
          cases h
        · rfl
    | null => simp
    | bool b => simp
    | number t => simp
    | string s => simp
    | array es => simp

/-- A field the body has no member for keeps its value. -/
theorem unmarshalStruct_lacksField (names : List Bytes) (body : Bytes) (vals : List Bytes)
    (i : Nat) (h : lacksField names body i) :
    (unmarshalStruct names body vals).1.getD i [] = vals.getD i [] := by
  unfold unmarshalStruct
  rcases h with h | ⟨ms, h, hno⟩
  · simp only [h]
  · simp only [h]
    exact decodeMembers_getD names i ms hno vals none

/-- The rejecting rule `decodeRejects`, spelled out. -/
theorem decodeRejects_iff (names : List Bytes) (body : Bytes) :
    decodeRejects names body = true ↔
      jsonParse body = none ∨
      (∃ v, jsonParse body = some v ∧ (∀ ms, v ≠ JValue.object ms) ∧ v ≠ JValue.null) ∨
      (∃ ms, jsonParse body = some (JValue.object ms) ∧
        ∃ m ∈ ms, findField names m.1 ≠ none ∧ m.2.isStringOrNull = false) := by
  unfold decodeRejects
  cases hp : jsonParse body with
  | none => simp
  | some v =>
    cases v with
    | object ms =>
      simp only [List.any_eq_true, Bool.and_eq_true, Bool.not_eq_true',
        Option.isSome_iff_ne_none]
      constructor
      · rintro ⟨m, hm, hf, hs⟩
        exact Or.inr (Or.inr ⟨ms, rfl, m, hm, hf, hs⟩)
      · rintro (h | ⟨v, hv, hobj, _⟩ | ⟨ms2, hms, m, hm, hf, hs⟩)
        · cases h
        · cases hv; exact absurd rfl (hobj ms)
        · cases hms; exact ⟨m, hm, hf, hs⟩
    | null => simp
    | bool b => simp
    | number t => simp
    | string s => simp
    | array es => simp

/-! ## Lemmas: UTF-8 and the round trip through JSON text -/


theorem and_3F (x : Nat) : x &&& 0x3F = x % 64 := Nat.and_pow_two_sub_one_eq_mod x 6
theorem and_1F (x : Nat) : x &&& 0x1F = x % 32 := Nat.and_pow_two_sub_one_eq_mod x 5
theorem and_0F (x : Nat) : x &&& 0x0F = x % 16 := Nat.and_pow_two_sub_one_eq_mod x 4
theorem and_07 (x : Nat) : x &&& 0x07 = x % 8 := Nat.and_pow_two_sub_one_eq_mod x 3

theorem or_80 : ∀ b, b < 64 → 0x80 ||| b = 0x80 + b := by decide
theorem or_C0 : ∀ a, a < 32 → 0xC0 ||| a = 0xC0 + a := by decide
theorem or_E0 : ∀ a, a < 16 → 0xE0 ||| a = 0xE0 + a := by decide
theorem or_F0 : ∀ a, a < 8 → 0xF0 ||| a = 0xF0 + a := by decide

theorem shl6 (x : Nat) : x <<< 6 = x * 64 := Nat.shiftLeft_eq x 6
theorem shl12 (x : Nat) : x <<< 12 = x * 4096 := Nat.shiftLeft_eq x 12
theorem shl18 (x : Nat) : x <<< 18 = x * 262144 := Nat.shiftLeft_eq x 18
theorem shr6 (x : Nat) : x >>> 6 = x / 64 := Nat.shiftRight_eq_div_pow x 6
theorem shr12 (x : Nat) : x >>> 12 = x / 4096 := Nat.shiftRight_eq_div_pow x 12
theorem shr18 (x : Nat) : x >>> 18 = x / 262144 := Nat.shiftRight_eq_div_pow x 18

/-- Bitwise or of a multiple of `2 ^ k` and a number below `2 ^ k` is their
sum. -/
theorem or_eq_add (k X y : Nat) (hX : X % 2 ^ k = 0) (hy : y < 2 ^ k) : X ||| y = X + y := by
  have h : X = 2 ^ k * (X / 2 ^ k) := (Nat.mul_div_cancel' (Nat.dvd_of_mod_eq_zero hX)).symm
  rw [h, ← Nat.mul_add_lt_is_or hy]

theorem or_eq_add64 (X y : Nat) (hX : X % 64 = 0) (hy : y < 64) : X ||| y = X + y :=
  or_eq_add 6 X y hX hy

theorem or_eq_add4096 (X y : Nat) (hX : X % 4096 = 0) (hy : y < 4096) : X ||| y = X + y :=
  or_eq_add 12 X y hX hy

theorem or_eq_add262144 (X y : Nat) (hX : X % 262144 = 0) (hy : y < 262144) :
    X ||| y = X + y :=
  or_eq_add 18 X y hX hy

/-- Decoding undoes encoding, for a scalar value followed by anything. -/
theorem decodeRune_encodeRune (r : Nat) (hr : isScalar r) (rest : Bytes) :
    decodeRune (encodeRune r ++ rest) = (r, (encodeRune r).length) := by
  unfold isScalar at hr
  unfold encodeRune
  have eL : 0x80 ||| (r &&& 0x3F) = 0x80 + r % 64 := by
    rw [and_3F]; exact or_80 _ (by omega)
  have cL : inRange 0x80 0xBF (0x80 + r % 64) = true := by
    simp only [inRange, decide_eq_true_eq]; omega
  have dL : (0x80 + r % 64) % 64 = r % 64 := by omega
  by_cases h1 : r < 0x80
  · simp [h1, decodeRune]
  · by_cases h2 : r < 0x800
    · have e0 : 0xC0 ||| (r >>> 6) = 0xC0 + r / 64 := by rw [shr6]; exact or_C0 _ (by omega)
      simp only [h1, h2, if_false, if_true, e0, eL, List.cons_append, List.nil_append]
      unfold decodeRune
      have c1 : ¬ (0xC0 + r / 64 < 0x80) := by omega
      have c2 : ¬ (0xC0 + r / 64 < 0xC2) := by omega
      have c3 : 0xC0 + r / 64 < 0xE0 := by omega
      have d1 : (0xC0 + r / 64) % 32 = r / 64 := by omega
      simp only [c1, c2, c3, cL, if_false, if_true, and_1F, and_3F, List.length_cons,
        List.length_nil, d1, dL, shl6]
      rw [or_eq_add64 _ _ (by omega) (by omega)]
      simp only [Prod.mk.injEq, and_true]
      omega
    · have hsur : ¬ ((0xD800 ≤ r ∧ r < 0xE000) ∨ 0x10FFFF < r) := by omega
      have eM : 0x80 ||| ((r >>> 6) &&& 0x3F) = 0x80 + r / 64 % 64 := by
        rw [shr6, and_3F]; exact or_80 _ (by omega)
      have cM : inRange 0x80 0xBF (0x80 + r / 64 % 64) = true := by
        simp only [inRange, decide_eq_true_eq]; omega
      have dM : (0x80 + r / 64 % 64) % 64 = r / 64 % 64 := by omega
      by_cases h3 : r < 0x10000
      · have e0 : 0xE0 ||| (r >>> 12) = 0xE0 + r / 4096 := by
          rw [shr12]; exact or_E0 _ (by omega)
        simp only [h1, h2, h3, hsur, if_false, if_true, e0, eM, eL, List.cons_append,
          List.nil_append]
        unfold decodeRune
        have c1 : ¬ (0xE0 + r / 4096 < 0x80) := by omega
        have c2 : ¬ (0xE0 + r / 4096 < 0xC2) := by omega
        have c3 : ¬ (0xE0 + r / 4096 < 0xE0) := by omega
        have c4 : 0xE0 + r / 4096 < 0xF0 := by omega
        have c5 : inRange (if 0xE0 + r / 4096 = 0xE0 then 0xA0 else 0x80)
            (if 0xE0 + r / 4096 = 0xED then 0x9F else 0xBF) (0x80 + r / 64 % 64) = true := by
          simp only [inRange, decide_eq_true_eq]
          split <;> split <;> omega
        have d0 : (0xE0 + r / 4096) % 16 = r / 4096 := by omega
        simp only [c1, c2, c3, c4, c5, cL, if_false, if_true, and_0F, and_3F,
          List.length_cons, List.length_nil, Bool.and_self, dL, dM, d0, shl6, shl12]
        rw [or_eq_add4096 (r / 4096 * 4096) (r / 64 % 64 * 64) (by omega) (by omega),
          or_eq_add64 _ _ (by omega) (by omega)]
        simp only [Prod.mk.injEq, and_true]
        omega
      · have e0 : 0xF0 ||| (r >>> 18) = 0xF0 + r / 262144 := by
          rw [shr18]; exact or_F0 _ (by omega)
        have eH : 0x80 ||| ((r >>> 12) &&& 0x3F) = 0x80 + r / 4096 % 64 := by
          rw [shr12, and_3F]; exact or_80 _ (by omega)
        have dH : (0x80 + r / 4096 % 64) % 64 = r / 4096 % 64 := by omega
        simp only [h1, h2, h3, hsur, if_false, if_true, e0, eH, eM, eL, List.cons_append,
          List.nil_append]
        unfold decodeRune
        have c1 : ¬ (0xF0 + r / 262144 < 0x80) := by omega
        have c2 : ¬ (0xF0 + r / 262144 < 0xC2) := by omega
        have c3 : ¬ (0xF0 + r / 262144 < 0xE0) := by omega
        have c4 : ¬ (0xF0 + r / 262144 < 0xF0) := by omega
        have c6 : 0xF0 + r / 262144 < 0xF5 := by omega
        have c5 : inRange (if 0xF0 + r / 262144 = 0xF0 then 0x90 else 0x80)
            (if 0xF0 + r / 262144 = 0xF4 then 0x8F else 0xBF) (0x80 + r / 4096 % 64) = true := by
          simp only [inRange, decide_eq_true_eq]
          split <;> split <;> omega
        have d0 : (0xF0 + r / 262144) % 8 = r / 262144 := by omega
        simp only [c1, c2, c3, c4, c5, c6, cL, cM, if_false, if_true, and_07, and_3F,
          List.length_cons, List.length_nil, Bool.and_self, dL, dM, dH, d0, shl6, shl12, shl18]
        rw [or_eq_add262144 (r / 262144 * 262144) (r / 4096 % 64 * 4096) (by omega) (by omega),
          or_eq_add4096 (r / 262144 * 262144 + r / 4096 % 64 * 4096) (r / 64 % 64 * 64)
            (by omega) (by omega),
          or_eq_add64 _ _ (by omega) (by omega)]
        simp only [Prod.mk.injEq, and_true]
        omega

/-- The encoding of a scalar value is either the value itself, below 0x80, or
at least two bytes the first of which is 0x80 or more. -/
theorem encodeRune_cases (r : Nat) (hr : isScalar r) :
    (r < 0x80 ∧ encodeRune r = [r]) ∨
    (0x80 ≤ r ∧ ∃ b c t, encodeRune r = b :: c :: t ∧ 0x80 ≤ b) := by
  unfold isScalar at hr
  unfold encodeRune
  by_cases h1 : r < 0x80
  · exact Or.inl ⟨h1, by simp [h1]⟩
  · refine Or.inr ⟨by omega, ?_⟩
    by_cases h2 : r < 0x800
    · refine ⟨0xC0 ||| (r >>> 6), 0x80 ||| (r &&& 0x3F), [],
        by simp only [h1, h2, if_false, if_true], ?_⟩
      rw [shr6, or_C0 _ (by omega)]; omega
    · have hsur : ¬ ((0xD800 ≤ r ∧ r < 0xE000) ∨ 0x10FFFF < r) := by omega
      by_cases h3 : r < 0x10000
      · refine ⟨0xE0 ||| (r >>> 12), 0x80 ||| ((r >>> 6) &&& 0x3F), [0x80 ||| (r &&& 0x3F)],
          by simp only [h1, h2, h3, hsur, if_false, if_true], ?_⟩
        rw [shr12, or_E0 _ (by omega)]; omega
      · refine ⟨0xF0 ||| (r >>> 18), 0x80 ||| ((r >>> 12) &&& 0x3F),
          [0x80 ||| ((r >>> 6) &&& 0x3F), 0x80 ||| (r &&& 0x3F)],
          by simp only [h1, h2, h3, hsur, if_false, if_true], ?_⟩
        rw [shr18, or_F0 _ (by omega)]; omega

theorem encodeRune_length_pos (r : Nat) : 1 ≤ (encodeRune r).length := by
  unfold encodeRune
  repeat' split
  all_goals simp

theorem utf8Encode_length (runes : List Nat) : runes.length ≤ (utf8Encode runes).length := by
  induction runes with
  | nil => simp [utf8Encode]
  | cons r rest ih =>
    have := encodeRune_length_pos r
    simp only [utf8Encode, List.length_append, List.length_cons]
    omega

/-- One step of `escapeString` on valid text: the next scalar value is written
as `escapeRune` says. -/
theorem escapeString_encodeRune (r : Nat) (hr : isScalar r) (g : Nat) (bs : Bytes) :
    escapeString (g + 1) (encodeRune r ++ bs) = escapeRune r ++ escapeString g bs := by
  rcases encodeRune_cases r hr with ⟨h1, he⟩ | ⟨h1, b, c, t, he, hb⟩
  · rw [he]
    simp [escapeString, escapeRune, h1]
  · have hd := decodeRune_encodeRune r hr bs
    have h80 : ¬ r < 0x80 := by omega
    rw [he] at hd ⊢
    have hbb : ¬ b < 0x80 := by omega
    simp only [List.cons_append] at hd ⊢
    rw [escapeString, if_neg hbb]
    have hl : b :: c :: (t ++ bs) = (b :: c :: t) ++ bs := rfl
    have hne : ¬ (r = RuneError ∧ (b :: c :: t).length = 1) := by
      simp only [List.length_cons]; omega
    simp only [hd, hne, if_false, escapeRune, h80]
    rw [hl, List.take_left, List.drop_left, ← he]
    split <;> simp

theorem hextable_eq : hextable =
    [0x30, 0x31, 0x32, 0x33, 0x34, 0x35, 0x36, 0x37, 0x38, 0x39,
     0x61, 0x62, 0x63, 0x64, 0x65, 0x66] := by decide

/-- The escape `\u00XX` of a byte reads back as that byte. -/
theorem getu4_hex2 : ∀ v, v < 256 → ∀ tail : Bytes,
    getu4 (0x5C :: 0x75 :: 0x30 :: 0x30 :: (hex2 v ++ tail)) = some v := by
  intro v hv tail
  have h := hex_byte_facts v hv
  have h0 : fromHexChar 0x30 = some 0 := by decide
  simp only [hex2, List.cons_append, List.nil_append, getu4, h0]
  have e1 : hextable.getD (v &&& 0xF) 0 = hextable.getD (v &&& 0x0f) 0 := rfl
  rw [e1, h.2.2.1, h.2.2.2.1]
  simp only [Nat.zero_shiftLeft, Nat.zero_or, Option.some.injEq]
  exact h.2.2.2.2

/-- One step of `scanString` on escaped text: what `escapeRune` wrote is read
back as the scalar value. -/
theorem scanString_escapeRune (r : Nat) (hr : isScalar r) (f : Nat) (tail out : Bytes) :
    scanString (f + 1) (escapeRune r ++ tail) out = scanString f tail (out ++ encodeRune r) := by
  rcases encodeRune_cases r hr with ⟨h1, he⟩ | ⟨h1, b, c, t, he, hb⟩
  · rw [he]
    unfold escapeRune
    simp only [h1, if_true]
    have lb : lit "\\b" = [0x5C, 0x62] := by decide
    have lf : lit "\\f" = [0x5C, 0x66] := by decide
    have ln : lit "\\n" = [0x5C, 0x6E] := by decide
    have lr : lit "\\r" = [0x5C, 0x72] := by decide
    have lt : lit "\\t" = [0x5C, 0x74] := by decide
    have lu : lit "\\u00" = [0x5C, 0x75, 0x30, 0x30] := by decide
    split
    · rename_i h
      rcases h with rfl | rfl <;> simp [scanString, simpleEscape]
    · split
      · rename_i h; subst h; simp [lb, scanString, simpleEscape]
      · split
        · rename_i h; subst h; simp [lf, scanString, simpleEscape]
        · split
          · rename_i h; subst h; simp [ln, scanString, simpleEscape]
          · split
            · rename_i h; subst h; simp [lr, scanString, simpleEscape]
            · split
              · rename_i h; subst h; simp [lt, scanString, simpleEscape]
              · split
                · have hg := getu4_hex2 r (by omega) tail
                  have hns : ¬ (0xD800 ≤ r ∧ r < 0xE000) := by omega
                  rw [lu]
                  simp only [hex2, List.cons_append, List.nil_append] at hg ⊢
                  rw [scanString]
                  simp only [hg, hns, if_false, List.drop_succ_cons, List.drop_zero, he,
                    show ¬ ((0x5C : Nat) = 0x22) by decide, if_true]
                · rename_i n1 n2 n3 n4 n5 n6 n7
                  have a1 : ¬ r = 0x22 := by omega
                  have a2 : ¬ r = 0x5C := by omega
                  have a3 : ¬ r < 0x20 := by omega
                  simp [scanString, a1, a2, a3, h1]
  · have h80 : ¬ r < 0x80 := by omega
    unfold escapeRune
    simp only [h80, if_false]
    split
    · rename_i h
      rcases h with rfl | rfl
      · have l1 : lit "\\u202" ++ [hextable.getD (0x2028 &&& 0xF) 0] =
            [0x5C, 0x75, 0x32, 0x30, 0x32, 0x38] := by decide
        rw [l1]
        simp [scanString, getu4, fromHexChar]
      · have l1 : lit "\\u202" ++ [hextable.getD (0x2029 &&& 0xF) 0] =
            [0x5C, 0x75, 0x32, 0x30, 0x32, 0x39] := by decide
        rw [l1]
        simp [scanString, getu4, fromHexChar]
    · have hd := decodeRune_encodeRune r hr tail
      rw [he] at hd ⊢
      have a1 : ¬ b = 0x22 := by omega
      have a2 : ¬ b = 0x5C := by omega
      have a3 : ¬ b < 0x20 := by omega
      have a4 : ¬ b < 0x80 := by omega
      have hl : b :: c :: (t ++ tail) = (b :: c :: t) ++ tail := rfl
      simp only [List.cons_append] at hd ⊢
      rw [scanString]
      simp only [a1, a2, a3, a4, if_false, hd]
      rw [hl, List.drop_left, he]

/-- Reading back what `escapeString` wrote for valid text gives the text. -/
theorem scanString_escapeString (runes : List Nat) (hr : ∀ r ∈ runes, isScalar r) :
    ∀ (f g : Nat) (out tail : Bytes), runes.length < f → runes.length ≤ g →
      scanString f (escapeString g (utf8Encode runes) ++ 0x22 :: tail) out =
        some (out ++ utf8Encode runes, tail) := by
  induction runes with
  | nil =>
    intro f g out tail hf _
    obtain ⟨f1, rfl⟩ : ∃ f1, f = f1 + 1 := ⟨f - 1, by omega⟩
    cases g <;> simp [utf8Encode, escapeString, scanString]
  | cons r rest ih =>
    intro f g out tail hf hg
    simp only [List.length_cons] at hf hg
    obtain ⟨f1, rfl⟩ : ∃ f1, f = f1 + 1 := ⟨f - 1, by omega⟩
    obtain ⟨g1, rfl⟩ : ∃ g1, g = g1 + 1 := ⟨g - 1, by omega⟩
    have hs := hr r (List.mem_cons_self _ _)
    rw [utf8Encode, escapeString_encodeRune r hs, List.append_assoc,
      scanString_escapeRune r hs,
      ih (fun x hx => hr x (List.mem_cons_of_mem _ hx)) f1 g1 _ tail (by omega) (by omega),
      List.append_assoc]

/-- A quoted string, as `json.Marshal` writes it for valid UTF-8, is read back
by the scanner as the string itself. -/
theorem scanString_quoteString (s : Bytes) (hs : ValidUTF8 s) (tail : Bytes) (f : Nat)
    (hf : s.length < f) :
    scanString f (escapeString s.length s ++ 0x22 :: tail) [] = some (s, tail) := by
  obtain ⟨runes, hr, rfl⟩ := hs
  have hl := utf8Encode_length runes
  have := scanString_escapeString runes hr f (utf8Encode runes).length [] tail
    (by omega) hl
  simpa using this

/-- The scanner reads a quoted string back, given fuel for the escaped
text. -/
theorem scanString_quoted (s : Bytes) (hs : ValidUTF8 s) (tail : Bytes) (F : Nat)
    (hF : (escapeString s.length s ++ 0x22 :: tail).length < F) :
    scanString F (escapeString s.length s ++ 0x22 :: tail) [] = some (s, tail) := by
  rw [← scanString_fuel F (F + s.length) _ [] hF (by omega)]
  exact scanString_quoteString s hs tail _ (by omega)

theorem parseValue_quoted (s : Bytes) (hs : ValidUTF8 s) (f d : Nat) (tail : Bytes) :
    parseValue (f + 1) d (quoteString s ++ tail) = some (JValue.string s, tail) := by
  unfold quoteString
  simp only [List.cons_append, List.nil_append, List.append_assoc, List.singleton_append]
  rw [parseValue]
  simp only [skipSpace, isSpace]
  simp only [show ¬ ((0x22 : Nat) = 0x7B) by decide, show ¬ ((0x22 : Nat) = 0x5B) by decide,
    if_false, if_true, Nat.reduceEqDiff, decide_False, Bool.or_self, Bool.false_eq_true]
  rw [scanString_quoted s hs tail _ (by omega)]

theorem parseValue_bool (b : Bool) (f d : Nat) (tail : Bytes) :
    parseValue (f + 1) d ((if b then lit "true" else lit "false") ++ tail) =
      some (JValue.bool b, tail) := by
  have lt : lit "true" = [0x74, 0x72, 0x75, 0x65] := by decide
  have lf : lit "false" = [0x66, 0x61, 0x6C, 0x73, 0x65] := by decide
  cases b
  · simp [lf, parseValue, skipSpace, isSpace, isDigit, lt]
  · simp [lt, parseValue, skipSpace, isSpace, isDigit]

/-- A member `"key":value` followed by a comma: the parser moves on to the next
member. -/
theorem parseMembers_member (key : Bytes) (hk : ∀ b ∈ key, plainByte b) (v : JValue)
    (vtext : Bytes) (hv : ∀ f d tail, parseValue (f + 1) d (vtext ++ tail) = some (v, tail))
    (f d : Nat) (rest : Bytes) (acc : List (Bytes × JValue)) :
    parseMembers (f + 2) d (0x22 :: (key ++ 0x22 :: 0x3A :: (vtext ++ 0x2C :: rest))) acc =
      parseMembers (f + 1) d rest (acc ++ [(key, v)]) := by
  rw [parseMembers]
  simp only [skipSpace, isSpace, Nat.reduceEqDiff, decide_False, Bool.or_self,
    Bool.false_eq_true, if_false]
  rw [scanString_plain key hk _ [] (0x3A :: (vtext ++ 0x2C :: rest))
    (by simp only [List.length_append, List.length_cons]; omega)]
  simp only [List.nil_append, skipSpace, isSpace, Nat.reduceEqDiff, decide_False, Bool.or_self,
    Bool.false_eq_true, if_false, hv]

/-- The last member `"key":value` followed by the closing brace. -/
theorem parseMembers_last (key : Bytes) (hk : ∀ b ∈ key, plainByte b) (v : JValue)
    (vtext : Bytes) (hv : ∀ f d tail, parseValue (f + 1) d (vtext ++ tail) = some (v, tail))
    (f d : Nat) (rest : Bytes) (acc : List (Bytes × JValue)) :
    parseMembers (f + 2) d (0x22 :: (key ++ 0x22 :: 0x3A :: (vtext ++ 0x7D :: rest))) acc =
      some (JValue.object (acc ++ [(key, v)]), rest) := by
  rw [parseMembers]
  simp only [skipSpace, isSpace, Nat.reduceEqDiff, decide_False, Bool.or_self,
    Bool.false_eq_true, if_false]
  rw [scanString_plain key hk _ [] (0x3A :: (vtext ++ 0x7D :: rest))
    (by simp only [List.length_append, List.length_cons]; omega)]
  simp only [List.nil_append, skipSpace, isSpace, Nat.reduceEqDiff, decide_False, Bool.or_self,
    Bool.false_eq_true, if_false, hv]

/-- The text `json.Marshal` writes for a request, member by member. -/
theorem marshalRegisterRequest_shape (r : registerRequest) :
    marshalRegisterRequest r =
      0x7B ::
      0x22 :: (lit "nonce" ++ 0x22 :: 0x3A :: (quoteString r.Nonce ++ 0x2C ::
      0x22 :: (lit "username" ++ 0x22 :: 0x3A :: (quoteString r.Username ++ 0x2C ::
      0x22 :: (lit "displayname" ++ 0x22 :: 0x3A :: (quoteString r.DisplayName ++ 0x2C ::
      0x22 :: (lit "password" ++ 0x22 :: 0x3A :: (quoteString r.Password ++ 0x2C ::
      0x22 :: (lit "admin" ++ 0x22 :: 0x3A ::
        ((if r.Admin then lit "true" else lit "false") ++ 0x2C ::
      0x22 :: (lit "mac" ++ 0x22 :: 0x3A :: (quoteString r.MAC ++ 0x7D :: [])))))))))))) := by
  have e1 : lit "\x7b\"nonce\":" = 0x7B :: 0x22 :: (lit "nonce" ++ [0x22, 0x3A]) := by decide
  have e2 : lit ",\"username\":" = 0x2C :: 0x22 :: (lit "username" ++ [0x22, 0x3A]) := by
    decide
  have e3 : lit ",\"displayname\":" = 0x2C :: 0x22 :: (lit "displayname" ++ [0x22, 0x3A]) := by
    decide
  have e4 : lit ",\"password\":" = 0x2C :: 0x22 :: (lit "password" ++ [0x22, 0x3A]) := by
    decide
  have e5 : lit ",\"admin\":" = 0x2C :: 0x22 :: (lit "admin" ++ [0x22, 0x3A]) := by decide
  have e6 : lit ",\"mac\":" = 0x2C :: 0x22 :: (lit "mac" ++ [0x22, 0x3A]) := by decide
  have e7 : lit "\x7d" = [0x7D] := by decide
  unfold marshalRegisterRequest
  rw [e1, e2, e3, e4, e5, e6, e7]
  simp only [List.append_assoc, List.cons_append, List.nil_append]

/-- The text `json.Marshal` writes for a request whose strings are valid UTF-8
is a JSON document: the object with the six members of the request, in
order. -/
theorem jsonParse_marshalRegisterRequest (r : registerRequest)
    (hn : ValidUTF8 r.Nonce) (hu : ValidUTF8 r.Username) (hd : ValidUTF8 r.DisplayName)
    (hp : ValidUTF8 r.Password) (hm : ValidUTF8 r.MAC) :
    jsonParse (marshalRegisterRequest r) = some (JValue.object
      [(lit "nonce", JValue.string r.Nonce), (lit "username", JValue.string r.Username),
       (lit "displayname", JValue.string r.DisplayName),
       (lit "password", JValue.string r.Password), (lit "admin", JValue.bool r.Admin),
       (lit "mac", JValue.string r.MAC)]) := by
  unfold jsonParse
  obtain ⟨k, hk⟩ : ∃ k, 2 * (marshalRegisterRequest r).length + 1 = k + 8 := by
    refine ⟨2 * (marshalRegisterRequest r).length - 7, ?_⟩
    have : 8 ≤ (marshalRegisterRequest r).length := by
      rw [marshalRegisterRequest_shape]
      simp only [List.length_cons, List.length_append]
      omega
    omega
  rw [hk, marshalRegisterRequest_shape, parseValue]
  simp only [skipSpace, isSpace, Nat.reduceEqDiff, decide_False, Bool.or_self,
    Bool.false_eq_true, if_false, if_true, maxNestingDepth]
  rw [parseMembers_member (lit "nonce") (by decide) _ _ (parseValue_quoted _ hn),
    parseMembers_member (lit "username") (by decide) _ _ (parseValue_quoted _ hu),
    parseMembers_member (lit "displayname") (by decide) _ _ (parseValue_quoted _ hd),
    parseMembers_member (lit "password") (by decide) _ _ (parseValue_quoted _ hp),
    parseMembers_member (lit "admin") (by decide) _ _ (parseValue_bool r.Admin),
    parseMembers_last (lit "mac") (by decide) _ _ (parseValue_quoted _ hm)]
  simp [skipSpace]

theorem utf8Encode_append (a b : List Nat) :
    utf8Encode (a ++ b) = utf8Encode a ++ utf8Encode b := by
  induction a with
  | nil => rfl
  | cons r rest ih =>
    show encodeRune r ++ utf8Encode (rest ++ b) = (encodeRune r ++ utf8Encode rest) ++ utf8Encode b
    rw [ih, List.append_assoc]

theorem validUTF8_nil : ValidUTF8 [] := ⟨[], by simp, rfl⟩

theorem validUTF8_append (a b : Bytes) (ha : ValidUTF8 a) (hb : ValidUTF8 b) :
    ValidUTF8 (a ++ b) := by
  obtain ⟨ra, ha1, rfl⟩ := ha
  obtain ⟨rb, hb1, rfl⟩ := hb
  refine ⟨ra ++ rb, ?_, utf8Encode_append ra rb⟩
  intro r hr
  rcases List.mem_append.mp hr with h | h
  · exact ha1 r h
  · exact hb1 r h

/-- Whatever `encodeRune` writes is valid UTF-8: a value that is not a scalar
is written as U+FFFD. -/
theorem validUTF8_encodeRune (r : Nat) : ValidUTF8 (encodeRune r) := by
  by_cases hs : isScalar r
  · exact ⟨[r], by simpa using hs, by simp [utf8Encode]⟩
  · refine ⟨[0xFFFD], by decide, ?_⟩
    have h1 : encodeRune 0xFFFD = [0xEF, 0xBF, 0xBD] := by decide
    simp only [utf8Encode, List.append_nil, h1]
    unfold isScalar at hs
    unfold encodeRune
    have a1 : ¬ r < 0x80 := by omega
    have a2 : ¬ r < 0x800 := by omega
    have a3 : (0xD800 ≤ r ∧ r < 0xE000) ∨ 0x10FFFF < r := by omega
    simp only [a1, a2, a3, if_false, if_true]

theorem validUTF8_ascii (s : Bytes) (h : ∀ b ∈ s, b < 0x80) : ValidUTF8 s := by
  refine ⟨s, fun r hr => Or.inl (by have := h r hr; omega), ?_⟩
  induction s with
  | nil => rfl
  | cons b rest ih =>
    have hb : b < 0x80 := h b (List.mem_cons_self _ _)
    simp only [utf8Encode, ih (fun x hx => h x (List.mem_cons_of_mem _ hx))]
    simp [encodeRune, hb]

theorem simpleEscape_lt (e x : Nat) (h : simpleEscape e = some x) : x < 0x80 := by
  unfold simpleEscape at h
  repeat' split at h
  all_goals first
    | (cases h; done)
    | (cases h; omega)

/-- Every string the scanner returns is valid UTF-8. -/
theorem scanString_valid : ∀ (f : Nat) (i out s r : Bytes),
    scanString f i out = some (s, r) → ValidUTF8 out → ValidUTF8 s := by
  intro f
  induction f with
  | zero => intro i out s r h; simp [scanString] at h
  | succ f ih =>
    intro i out s r h hout
    unfold scanString at h
    dsimp only at h
    repeat' split at h
    all_goals first
      | (cases h; done)
      | (cases h; exact hout)
      | exact ih _ _ _ _ h (validUTF8_append _ _ hout (validUTF8_encodeRune _))
      | (rename_i hx
         exact ih _ _ _ _ h (validUTF8_append _ _ hout
           (validUTF8_ascii _ (by
             intro b hb
             simp only [List.mem_singleton] at hb
             subst hb
             exact simpleEscape_lt _ _ hx))))
      | exact ih _ _ _ _ h (validUTF8_append _ _ hout
           (validUTF8_ascii _ (by
             intro b hb
             simp only [List.mem_singleton] at hb
             subst hb
             omega)))

/-- Every string at the top of what the parser returns, as a value of its own
or as the value of a member of an object, is valid UTF-8. -/
theorem parse_valid : ∀ (f : Nat),
    (∀ d i v r, parseValue f d i = some (v, r) →
      (∀ s, v = JValue.string s → ValidUTF8 s) ∧
      (∀ ms, v = JValue.object ms → ∀ m ∈ ms, ∀ s, m.2 = JValue.string s → ValidUTF8 s)) ∧
    (∀ d i acc v r, parseElems f d i acc = some (v, r) → ∃ es, v = JValue.array es) ∧
    (∀ d i acc v r, parseMembers f d i acc = some (v, r) →
      (∀ m ∈ acc, ∀ s, m.2 = JValue.string s → ValidUTF8 s) →
      ∃ ms, v = JValue.object ms ∧ ∀ m ∈ ms, ∀ s, m.2 = JValue.string s → ValidUTF8 s) := by
  intro f
  induction f with
  | zero =>
    refine ⟨?_, ?_, ?_⟩
    · intro d i v r h; simp [parseValue] at h
    · intro d i acc v r h; simp [parseElems] at h
    · intro d i acc v r h; simp [parseMembers] at h
  | succ f ih =>
    obtain ⟨ihV, ihE, ihM⟩ := ih
    refine ⟨?_, ?_, ?_⟩
    · intro d i v r h
      unfold parseValue at h
      split at h
      · cases h
      · repeat' split at h
        all_goals first
          | (cases h; done)
          | (obtain ⟨ms, rfl, hms⟩ := ihM _ _ _ _ _ h (by simp)
             refine ⟨?_, ?_⟩
             · intro s hs; cases hs
             · intro ms2 h2; cases h2; exact hms)
          | (obtain ⟨es, rfl⟩ := ihE _ _ _ _ _ h
             refine ⟨?_, ?_⟩
             · intro s hs; cases hs
             · intro ms2 h2; cases h2)
          | (rename_i hsc
             cases h
             refine ⟨?_, ?_⟩
             · intro s hs; cases hs; exact scanString_valid _ _ _ _ _ hsc validUTF8_nil
             · intro ms2 h2; cases h2)
          | (cases h
             refine ⟨?_, ?_⟩
             · intro s hs; cases hs
             · intro ms2 h2; cases h2; intro m hm; cases hm)
          | (cases h
             refine ⟨?_, ?_⟩
             · intro s hs; cases hs
             · intro ms2 h2; cases h2)
    · intro d i acc v r h
      unfold parseElems at h
      split at h
      · cases h
      · repeat' split at h
        all_goals first
          | (cases h; done)
          | exact ihE _ _ _ _ _ h
          | (cases h; exact ⟨_, rfl⟩)
    · intro d i acc v r h hacc
      unfold parseMembers at h
      split at h
      · split at h
        · cases h
        · rename_i key rest1 hk
          split at h
          · split at h
            · cases h
            · rename_i v1 rest3 hv
              have hv1 := (ihV _ _ _ _ hv).1
              have hacc2 : ∀ m ∈ acc ++ [(key, v1)], ∀ s, m.2 = JValue.string s →
                  ValidUTF8 s := by
                intro m hm s hs
                rcases List.mem_append.mp hm with h1 | h1
                · exact hacc m h1 s hs
                · simp only [List.mem_singleton] at h1
                  subst h1
                  exact hv1 s hs
              repeat' split at h
              all_goals first
                | (cases h; done)
                | exact ihM _ _ _ _ _ h hacc2
                | (cases h; exact ⟨_, rfl, hacc2⟩)
          · cases h
      · cases h

/-- Decoding keeps the field values valid UTF-8. -/
theorem decodeMembers_valid (names : List Bytes) (ms : List (Bytes × JValue))
    (hms : ∀ m ∈ ms, ∀ s, m.2 = JValue.string s → ValidUTF8 s) :
    ∀ (vals : List Bytes) (saved : Option JsonError), (∀ v ∈ vals, ValidUTF8 v) →
      ∀ v ∈ (decodeMembers names ms (vals, saved)).1, ValidUTF8 v := by
  induction ms with
  | nil => intro vals saved hv; exact hv
  | cons m rest ih =>
    intro vals saved hv
    obtain ⟨key, val⟩ := m
    have hrest := ih (fun m hm => hms m (List.mem_cons_of_mem _ hm))
    simp only [decodeMembers]
    cases findField names key with
    | none => exact hrest vals saved hv
    | some i =>
      simp only
      apply hrest
      intro v hmem
      rcases List.mem_or_eq_of_mem_set hmem with h1 | h1
      · exact hv v h1
      · subst h1
        cases val with
        | string s => exact hms (key, JValue.string s) (List.mem_cons_self _ _) s rfl
        | _ =>
          simp only [storeString]
          rw [List.getD_eq_getElem?_getD]
          cases hg : vals[i]? with
          | none => exact validUTF8_nil
          | some x => exact hv x (List.getElem?_mem hg)

/-- The nonce `json.Unmarshal` decodes is valid UTF-8. -/
theorem unmarshalNonceResponse_valid (body : Bytes) :
    ValidUTF8 (unmarshalNonceResponse body ⟨[]⟩).1.Nonce := by
  have hall : ∀ v ∈ (unmarshalStruct nonceResponseTags body [[]]).1, ValidUTF8 v := by
    unfold unmarshalStruct
    have h0 : ∀ v ∈ [([] : Bytes)], ValidUTF8 v := by
      intro v hv
      simp only [List.mem_singleton] at hv
      subst hv
      exact validUTF8_nil
    cases hp : jsonParse body with
    | none => exact h0
    | some j =>
      cases j with
      | object ms =>
        simp only
        apply decodeMembers_valid _ _ _ _ _ h0
        unfold jsonParse at hp
        split at hp
        · rename_i v rest hv
          split at hp
          · cases hp
            exact (((parse_valid _).1 _ _ _ _ hv).2 ms rfl)
          · cases hp
        · cases hp
      | _ => exact h0
  simp only [unmarshalNonceResponse]
  rw [List.getD_eq_getElem?_getD]
  cases hg : (unmarshalStruct nonceResponseTags body [[]]).1[0]? with
  | none => exact validUTF8_nil
  | some x => exact hall x (List.getElem?_mem hg)

theorem validUTF8_hexEncodeToString (l : Bytes) (hl : ∀ b ∈ l, b < 256) :
    ValidUTF8 (hexEncodeToString l) :=
  validUTF8_ascii _ (fun c hc => by
    have := hexEncodeToString_lower l hl c hc
    unfold isLowerHex at this
    omega)

/-- A nonce of valid UTF-8, sent as the document `{"nonce":...}` with the nonce
quoted the way `json.Marshal` quotes, is decoded to exactly that nonce. -/
theorem unmarshalNonceResponse_quoted (n : Bytes) (hn : ValidUTF8 n) :
    unmarshalNonceResponse (lit "\x7b\"nonce\":" ++ quoteString n ++ lit "\x7d") ⟨[]⟩ =
      (⟨n⟩, none) := by
  have e1 : lit "\x7b\"nonce\":" = 0x7B :: 0x22 :: (lit "nonce" ++ [0x22, 0x3A]) := by decide
  have e2 : lit "\x7d" = [0x7D] := by decide
  have hshape : lit "\x7b\"nonce\":" ++ quoteString n ++ lit "\x7d" =
      0x7B :: 0x22 :: (lit "nonce" ++ 0x22 :: 0x3A :: (quoteString n ++ 0x7D :: [])) := by
    rw [e1, e2]
    simp only [List.append_assoc, List.cons_append, List.nil_append]
  have hp : jsonParse (lit "\x7b\"nonce\":" ++ quoteString n ++ lit "\x7d") =
      some (JValue.object [(lit "nonce", JValue.string n)]) := by
    unfold jsonParse
    obtain ⟨k, hk⟩ : ∃ k, 2 * (lit "\x7b\"nonce\":" ++ quoteString n ++ lit "\x7d").length + 1
        = k + 3 := by
      refine ⟨2 * (lit "\x7b\"nonce\":" ++ quoteString n ++ lit "\x7d").length - 2, ?_⟩
      have : 1 ≤ (lit "\x7b\"nonce\":" ++ quoteString n ++ lit "\x7d").length := by
        rw [hshape]
        simp only [List.length_cons]
        omega
      omega
    rw [hk, hshape, parseValue]
    simp only [skipSpace, isSpace, Nat.reduceEqDiff, decide_False, Bool.or_self,
      Bool.false_eq_true, if_false, if_true, maxNestingDepth]
    rw [parseMembers_last (lit "nonce") (by decide) _ _ (parseValue_quoted _ hn)]
    simp [skipSpace]
  simp only [unmarshalNonceResponse, unmarshalStruct, hp]
  have hf : findField nonceResponseTags (lit "nonce") = some 0 := by decide
  simp [decodeMembers, hf, storeString, saveError]

/-! ## Lemmas: the run -/

theorem httpGet_response (w : World) (url : Bytes) (res : Response)
    (h : httpGet w url = RoundTrip.response res) :
    w.parseURL url = none ∧ w.send ⟨lit "GET", url, []⟩ = RoundTrip.response res := by
  unfold httpGet clientDo at h
  cases hp : w.parseURL url with
  | some msg => rw [hp] at h; cases h
  | none => rw [hp] at h; exact ⟨rfl, h⟩

theorem setMAC_signedRequest (c : Config) (nonce : Bytes) :
    setMAC c.secret ⟨nonce, c.username, c.displayName, c.password, false, []⟩ =
      signedRequest c nonce := by
  have h := setMAC_MAC c.secret ⟨nonce, c.username, c.displayName, c.password, false, []⟩
  simp only [setMAC] at h ⊢
  rw [h]
  rfl

theorem main_incomplete (w : World) (c : Config) (h : ¬ c.complete) :
    main w c = ⟨Outcome.usage, []⟩ := by
  unfold main
  rw [if_pos]
  unfold Config.complete at h
  by_contra hn
  simp only [not_or] at hn
  exact h hn

theorem main_complete (w : World) (c : Config) (h : c.complete) :
    main w c =
      match httpGet w (registerURL c) with
      | RoundTrip.failure msg =>
          ⟨Outcome.fatalln (error.transport msg), [HttpCall.Get (registerURL c)]⟩
      | RoundTrip.failureWithResponse _ msg =>
          ⟨Outcome.fatalln (error.transport msg), [HttpCall.Get (registerURL c)]⟩
      | RoundTrip.response res =>
        match res.readErr with
        | some msg => ⟨Outcome.fatalln (error.read msg), [HttpCall.Get (registerURL c)]⟩
        | none =>
          if res.StatusCode ≠ 200 then
            ⟨Outcome.fatalf "body: %s" res.body, [HttpCall.Get (registerURL c)]⟩
          else
            match (unmarshalNonceResponse res.body ⟨[]⟩).2 with
            | some e => ⟨Outcome.fatalln (error.json e), [HttpCall.Get (registerURL c)]⟩
            | none =>
              mainSubmit w (HttpCall.Get (registerURL c))
                (submitCall c (unmarshalNonceResponse res.body ⟨[]⟩).1.Nonce) := by
  unfold main
  rw [if_neg]
  · cases hg : httpGet w (registerURL c) with
    | failure msg => rfl
    | failureWithResponse res msg => rfl
    | response res =>
      simp only
      cases hr : res.readErr with
      | some msg => rfl
      | none =>
        simp only
        by_cases hs : res.StatusCode ≠ 200
        · rw [if_pos hs, if_pos hs]
        · rw [if_neg hs, if_neg hs]
          cases he : (unmarshalNonceResponse res.body ⟨[]⟩).2 with
          | some e => rfl
          | none =>
            simp only
            rw [unmarshalNonceResponse_err_indep res.body _ ⟨[]⟩, he]
            simp only
            have hp := (httpGet_response w _ res hg).1
            simp only [httpNewRequest, hp, setMAC_signedRequest]
            rfl
  · unfold Config.complete at h
    simp only [not_or]
    exact h

theorem mainSubmit_calls (w : World) (get : HttpCall) (req : Request) :
    (mainSubmit w get req).calls = [get, HttpCall.Do req] := by
  unfold mainSubmit
  simp only
  split
  · rfl
  · split
    · rfl
    · split
      · rfl
      · split <;> rfl

theorem mainSubmit_outcome_ne_usage (w : World) (get : HttpCall) (req : Request) :
    (mainSubmit w get req).outcome ≠ Outcome.usage := by
  unfold mainSubmit
  simp only
  split
  · simp
  · split
    · simp
    · split
      · simp
      · split <;> simp

theorem mainSubmit_response (w : World) (get : HttpCall) (req : Request) (res : Response)
    (h : clientDo w req = RoundTrip.response res) (hr : res.readErr = none) :
    mainSubmit w get req =
      if res.StatusCode ≠ 200 then
        ⟨Outcome.fatalf "failure: %s" res.body, [get, HttpCall.Do req]⟩
      else
        match (unmarshalRegisterResponse res.body ⟨[], [], [], []⟩).2 with
        | some e => ⟨Outcome.fatalln (error.json e), [get, HttpCall.Do req]⟩
        | none =>
          ⟨Outcome.success (unmarshalRegisterResponse res.body ⟨[], [], [], []⟩).1,
            [get, HttpCall.Do req]⟩ := by
  unfold mainSubmit
  simp only [h, hr]

theorem mainSubmit_failure (w : World) (get : HttpCall) (req : Request) (msg : Bytes)
    (h : clientDo w req = RoundTrip.failure msg) :
    mainSubmit w get req = ⟨Outcome.nilDereference, [get, HttpCall.Do req]⟩ := by
  unfold mainSubmit
  simp only [h]

/-- The run once the fetch has produced a nonce. -/
theorem main_fetched (w : World) (c : Config) (body n : Bytes) (hc : c.complete)
    (hget : httpGet w (registerURL c) = RoundTrip.response ⟨200, body, none⟩)
    (hdec : unmarshalNonceResponse body ⟨[]⟩ = (⟨n⟩, none)) :
    main w c = mainSubmit w (HttpCall.Get (registerURL c)) (submitCall c n) := by
  rw [main_complete w c hc, hget]
  simp only [hdec, ne_eq, not_true_eq_false, if_false]

theorem posts_get_do (url : Bytes) (req : Request) (h : req.Method = lit "POST") :
    posts [HttpCall.Get url, HttpCall.Do req] = [req] := by
  simp [posts, h]

theorem unmarshalStruct_parse_none (names : List Bytes) (data : Bytes) (vals : List Bytes)
    (h : jsonParse data = none) :
    unmarshalStruct names data vals = (vals, some JsonError.SyntaxError) := by
  simp only [unmarshalStruct, h]

theorem unmarshalStruct_object (names : List Bytes) (data : Bytes) (vals : List Bytes)
    (ms : List (Bytes × JValue)) (h : jsonParse data = some (JValue.object ms)) :
    unmarshalStruct names data vals = decodeMembers names ms (vals, none) := by
  simp only [unmarshalStruct, h]

theorem main_complete_head (w : World) (c : Config) (hc : c.complete) :
    (main w c).calls.head? = some (HttpCall.Get (registerURL c)) ∧
    (main w c).outcome ≠ Outcome.usage := by
  rw [main_complete w c hc]
  cases httpGet w (registerURL c) with
  | failure msg => simp
  | failureWithResponse res msg => simp
  | response res =>
    simp only
    cases res.readErr with
    | some msg => simp
    | none =>
      simp only
      by_cases hs : res.StatusCode ≠ 200
      · rw [if_pos hs]; simp
      · rw [if_neg hs]
        cases (unmarshalNonceResponse res.body ⟨[]⟩).2 with
        | some e => simp
        | none =>
          simp only
          rw [mainSubmit_calls]
          exact ⟨rfl, mainSubmit_outcome_ne_usage _ _ _⟩

/-- The submit phase on any response the client hands back, with or without an
error next to it: the error is never looked at. -/
theorem mainSubmit_any_response (w : World) (get : HttpCall) (req : Request) (res : Response)
    (h : clientDo w req = RoundTrip.response res ∨
      ∃ msg, clientDo w req = RoundTrip.failureWithResponse res msg) :
    mainSubmit w get req =
      match res.readErr with
      | some msg => ⟨Outcome.fatalln (error.read msg), [get, HttpCall.Do req]⟩
      | none =>
        if res.StatusCode ≠ 200 then
          ⟨Outcome.fatalf "failure: %s" res.body, [get, HttpCall.Do req]⟩
        else
          match (unmarshalRegisterResponse res.body ⟨[], [], [], []⟩).2 with
          | some e => ⟨Outcome.fatalln (error.json e), [get, HttpCall.Do req]⟩
          | none =>
            ⟨Outcome.success (unmarshalRegisterResponse res.body ⟨[], [], [], []⟩).1,
              [get, HttpCall.Do req]⟩ := by
  unfold mainSubmit
  rcases h with h | ⟨msg, h⟩ <;> simp only [h]

/-! ## The digest (`setMAC`) -/

/-- C1: for every secret and every request whose admin flag is false, `setMAC`
leaves the other fields alone and sets `MAC` to the lower-case hex encoding of
HMAC-SHA1, keyed by the secret, over the single byte string
`nonce ++ [0] ++ username ++ [0] ++ password ++ [0] ++ "notadmin"`: the seven
writes amount to hashing that one concatenation. -/
theorem setMAC_notadmin_digest (secret : Bytes) (req : registerRequest)
    (_h : req.Admin = false) :
    setMAC secret req = { req with MAC := hexEncodeToString (HMAC_SHA1 secret
      (req.Nonce ++ [0x00] ++ req.Username ++ [0x00] ++ req.Password ++ [0x00] ++
        lit "notadmin")) } := by
  have h := setMAC_MAC secret req
  simp only [setMAC] at h ⊢
  rw [h]

/-- C1 at the reference vector: secret `s3cr3t`, nonce `abc123`, username
`alice`, password `hunter2`. -/
theorem setMAC_notadmin_digest_witness :
    (⟨lit "abc123", lit "alice", lit "Alice A", lit "hunter2", false, []⟩ : registerRequest).Admin
      = false ∧
    setMAC (lit "s3cr3t") ⟨lit "abc123", lit "alice", lit "Alice A", lit "hunter2", false, []⟩ =
      ⟨lit "abc123", lit "alice", lit "Alice A", lit "hunter2", false,
        hexEncodeToString
          (HMAC_SHA1 (lit "s3cr3t") (lit "abc123\u0000alice\u0000hunter2\u0000notadmin"))⟩ ∧
    hexEncodeToString
        (HMAC_SHA1 (lit "s3cr3t") (lit "abc123\u0000alice\u0000hunter2\u0000notadmin")) =
      lit "755ad5fb18e2a39a9c4aea0d25d3807583aeebc1" :=
  ⟨rfl, setMAC_notadmin_digest (lit "s3cr3t")
      ⟨lit "abc123", lit "alice", lit "Alice A", lit "hunter2", false, []⟩ rfl, by decide⟩

/-- C2 fails as stated: for a request with the admin flag set, the mac `setMAC`
computes is not the digest whose last segment is `admin`. -/
theorem setMAC_admin_literal_counterexample :
    (setMAC (lit "s3cr3t")
        ⟨lit "abc123", lit "alice", lit "Alice A", lit "hunter2", true, []⟩).MAC ≠
      hexEncodeToString (HMAC_SHA1 (lit "s3cr3t")
        (lit "abc123" ++ [0x00] ++ lit "alice" ++ [0x00] ++ lit "hunter2" ++ [0x00] ++
          adminLiteral true)) := by
  decide

/-- C2, amended: for every secret and every request, whatever its admin flag,
the mac `setMAC` computes is the digest of
`nonce · NUL · username · NUL · password · NUL · "notadmin"`, the admin literal
of a request that is not an admin request; the flag itself is left as it
was. -/
theorem setMAC_digest_ignores_admin (secret : Bytes) (req : registerRequest) :
    (setMAC secret req).MAC = hexEncodeToString (HMAC_SHA1 secret
      (req.Nonce ++ [0x00] ++ req.Username ++ [0x00] ++ req.Password ++ [0x00] ++
        adminLiteral false)) ∧
    adminLiteral false = lit "notadmin" ∧
    (setMAC secret req).Admin = req.Admin :=
  ⟨setMAC_MAC secret req, rfl, rfl⟩

/-- C3: two requests that agree on nonce, username, password and admin flag get
the same mac, whatever their display names and previous mac values. -/
theorem setMAC_displayName_independent (secret : Bytes) (r1 r2 : registerRequest)
    (hn : r1.Nonce = r2.Nonce) (hu : r1.Username = r2.Username)
    (hp : r1.Password = r2.Password) (_ha : r1.Admin = r2.Admin) :
    (setMAC secret r1).MAC = (setMAC secret r2).MAC := by
  rw [setMAC_MAC, setMAC_MAC, hn, hu, hp]

/-- C3 at two requests that differ in display name and previous mac. -/
theorem setMAC_displayName_independent_witness :
    (setMAC (lit "k") ⟨lit "n1", lit "bob", lit "Bob B", lit "pw", false, []⟩).MAC =
      (setMAC (lit "k") ⟨lit "n1", lit "bob", lit "Robert", lit "pw", false, lit "00"⟩).MAC :=
  setMAC_displayName_independent (lit "k") _ _ rfl rfl rfl rfl

/-- C10: the mac `setMAC` produces has exactly 40 characters, each one of
`0-9` or `a-f`, and decoding it as hexadecimal gives back the 20 raw digest
bytes. -/
theorem setMAC_mac_shape (secret : Bytes) (req : registerRequest) :
    (setMAC secret req).MAC.length = 40 ∧
    (∀ ch ∈ (setMAC secret req).MAC, isLowerHex ch) ∧
    (HMAC_SHA1 secret (req.Nonce ++ [0x00] ++ req.Username ++ [0x00] ++ req.Password ++
      [0x00] ++ lit "notadmin")).length = 20 ∧
    hexDecodeString (setMAC secret req).MAC =
      some (HMAC_SHA1 secret (req.Nonce ++ [0x00] ++ req.Username ++ [0x00] ++ req.Password ++
        [0x00] ++ lit "notadmin")) := by
  rw [setMAC_MAC]
  refine ⟨?_, ?_, HMAC_SHA1_length _ _, ?_⟩
  · rw [hexEncodeToString_length, HMAC_SHA1_length]
  · exact hexEncodeToString_lower _ (HMAC_SHA1_lt _ _)
  · exact hexDecode_hexEncode _ (HMAC_SHA1_lt _ _)

/-! ## The run (`main`) -/

/-- C4 fails as stated: with the username the single byte 0xFF, which is not
valid UTF-8, every hypothesis of the claim holds, the mac is computed over the
raw byte, but the `username` member of the body `main` POSTs is U+FFFD, not the
configured value. -/
theorem main_posts_signed_request_counterexample :
    malformedConfig.complete ∧
    httpGet (world (reply 200 nonceBody) (reply 200 successBody)) (registerURL malformedConfig) =
      RoundTrip.response ⟨200, nonceBody, none⟩ ∧
    unmarshalNonceResponse nonceBody ⟨[]⟩ = (⟨lit "n1"⟩, none) ∧
    (main (world (reply 200 nonceBody) (reply 200 successBody)) malformedConfig).calls =
      [HttpCall.Get (lit "https://hs.example/_synapse/admin/v1/register"),
       HttpCall.Do ⟨lit "POST", lit "https://hs.example/_synapse/admin/v1/register",
        lit ("\x7b\"nonce\":\"n1\",\"username\":\"\\ufffd\",\"displayname\":\"Bob B\"," ++
          "\"password\":\"pw\",\"admin\":false," ++
          "\"mac\":\"cbd93f11b2d3c12b059067e3a9dd95a9e3f05f74\"\x7d")⟩] ∧
    jsonParse
        (lit ("\x7b\"nonce\":\"n1\",\"username\":\"\\ufffd\",\"displayname\":\"Bob B\"," ++
          "\"password\":\"pw\",\"admin\":false," ++
          "\"mac\":\"cbd93f11b2d3c12b059067e3a9dd95a9e3f05f74\"\x7d")) =
      some (JValue.object
        [(lit "nonce", JValue.string (lit "n1")),
         (lit "username", JValue.string [0xEF, 0xBF, 0xBD]),
         (lit "displayname", JValue.string (lit "Bob B")),
         (lit "password", JValue.string (lit "pw")), (lit "admin", JValue.bool false),
         (lit "mac", JValue.string (lit "cbd93f11b2d3c12b059067e3a9dd95a9e3f05f74"))]) ∧
    ([0xEF, 0xBF, 0xBD] : Bytes) ≠ malformedConfig.username ∧
    hexEncodeToString (HMAC_SHA1 malformedConfig.secret
        (lit "n1" ++ [0x00] ++ malformedConfig.username ++ [0x00] ++
          malformedConfig.password ++ [0x00] ++ lit "notadmin")) =
      lit "cbd93f11b2d3c12b059067e3a9dd95a9e3f05f74" := by
  refine ⟨by decide, by decide, by decide, ?_, by rfl, by decide, by decide⟩
  have h := main_fetched (world (reply 200 nonceBody) (reply 200 successBody)) malformedConfig
    nonceBody (lit "n1") (by decide) (by decide) (by decide)
  rw [h, mainSubmit_calls]
  decide

/-- C4, amended: for a complete configuration whose username, display name and
password are valid UTF-8, and a fetch answered with status 200 and a body that
decodes to the nonce `n` (by `unmarshalNonceResponse_quoted` the document
`{"nonce":...}` with `n` quoted is such a body for every `n` of valid UTF-8),
`main` makes exactly two calls, the GET and then a POST to the same endpoint,
and the body of the POST is a JSON document that
parses to the object with exactly the six members, in order, nonce `n`, the
configured username, display name and password, admin false, and mac the
HMAC-SHA1 hex digest of `n\0username\0password\0notadmin` keyed by the secret.
When the four strings need no escaping the body is that object written out
literally. -/
theorem main_posts_signed_request (w : World) (c : Config) (body n : Bytes)
    (hc : c.complete)
    (hu : ValidUTF8 c.username) (hd : ValidUTF8 c.displayName) (hp : ValidUTF8 c.password)
    (hget : httpGet w (registerURL c) = RoundTrip.response ⟨200, body, none⟩)
    (hdec : unmarshalNonceResponse body ⟨[]⟩ = (⟨n⟩, none)) :
    (main w c).calls =
      [HttpCall.Get (c.homeserverURL ++ lit "/_synapse/admin/v1/register"),
       HttpCall.Do ⟨lit "POST", c.homeserverURL ++ lit "/_synapse/admin/v1/register",
        marshalRegisterRequest ⟨n, c.username, c.displayName, c.password, false,
          hexEncodeToString (HMAC_SHA1 c.secret
            (n ++ [0x00] ++ c.username ++ [0x00] ++ c.password ++ [0x00] ++
              lit "notadmin"))⟩⟩] ∧
    jsonParse (marshalRegisterRequest ⟨n, c.username, c.displayName, c.password, false,
        hexEncodeToString (HMAC_SHA1 c.secret
          (n ++ [0x00] ++ c.username ++ [0x00] ++ c.password ++ [0x00] ++
            lit "notadmin"))⟩) =
      some (JValue.object
        [(lit "nonce", JValue.string n), (lit "username", JValue.string c.username),
         (lit "displayname", JValue.string c.displayName),
         (lit "password", JValue.string c.password), (lit "admin", JValue.bool false),
         (lit "mac", JValue.string (hexEncodeToString (HMAC_SHA1 c.secret
            (n ++ [0x00] ++ c.username ++ [0x00] ++ c.password ++ [0x00] ++
              lit "notadmin"))))]) ∧
    ((∀ b ∈ n, safeByte b) → (∀ b ∈ c.username, safeByte b) →
      (∀ b ∈ c.displayName, safeByte b) → (∀ b ∈ c.password, safeByte b) →
      marshalRegisterRequest ⟨n, c.username, c.displayName, c.password, false,
          hexEncodeToString (HMAC_SHA1 c.secret
            (n ++ [0x00] ++ c.username ++ [0x00] ++ c.password ++ [0x00] ++
              lit "notadmin"))⟩ =
        lit "\x7b\"nonce\":\"" ++ n ++ lit "\",\"username\":\"" ++ c.username ++
          lit "\",\"displayname\":\"" ++ c.displayName ++
          lit "\",\"password\":\"" ++ c.password ++ lit "\",\"admin\":false,\"mac\":\"" ++
          hexEncodeToString (HMAC_SHA1 c.secret
            (n ++ [0x00] ++ c.username ++ [0x00] ++ c.password ++ [0x00] ++
              lit "notadmin")) ++ lit "\"\x7d") := by
  refine ⟨?_, ?_, ?_⟩
  · rw [main_fetched w c body n hc hget hdec, mainSubmit_calls]
    rfl
  · have hn : ValidUTF8 n := by
      have h := unmarshalNonceResponse_valid body
      rw [hdec] at h
      exact h
    exact jsonParse_marshalRegisterRequest _ hn hu hd hp
      (validUTF8_hexEncodeToString _ (HMAC_SHA1_lt _ _))
  · intro hn hu hd hp
    have hm : ∀ b ∈ hexEncodeToString (HMAC_SHA1 c.secret
        (n ++ [0x00] ++ c.username ++ [0x00] ++ c.password ++ [0x00] ++ lit "notadmin")),
        safeByte b :=
      fun b hb => safeByte_of_isLowerHex b
        (hexEncodeToString_lower _ (HMAC_SHA1_lt _ _) b hb)
    simp only [marshalRegisterRequest, quoteString_safe _ hn, quoteString_safe _ hu,
      quoteString_safe _ hd, quoteString_safe _ hp, quoteString_safe _ hm,
      Bool.false_eq_true, if_false]
    have e1 : lit "\x7b\"nonce\":\"" = lit "\x7b\"nonce\":" ++ [0x22] := by decide
    have e2 : lit "\",\"username\":\"" = [0x22] ++ lit ",\"username\":" ++ [0x22] := by decide
    have e3 : lit "\",\"displayname\":\"" = [0x22] ++ lit ",\"displayname\":" ++ [0x22] := by
      decide
    have e4 : lit "\",\"password\":\"" = [0x22] ++ lit ",\"password\":" ++ [0x22] := by decide
    have e5 : lit "\",\"admin\":false,\"mac\":\"" =
        [0x22] ++ lit ",\"admin\":" ++ lit "false" ++ lit ",\"mac\":" ++ [0x22] := by decide
    have e6 : lit "\"\x7d" = [0x22] ++ lit "\x7d" := by decide
    rw [e1, e2, e3, e4, e5, e6]
    simp only [List.append_assoc]

/-- C4, amended, at the end-to-end scenario (nonce `n1`, username `bob`,
password `pw`, display name `Bob B`, secret `k`) and at a password that needs
escaping (`p"w<é`). -/
theorem main_posts_signed_request_witness :
    (sampleConfig.complete ∧ ValidUTF8 sampleConfig.username ∧
      ValidUTF8 sampleConfig.displayName ∧ ValidUTF8 sampleConfig.password ∧
      nonceBody = nonceDocument (lit "n1") ∧
      httpGet (world (reply 200 nonceBody) (reply 200 successBody)) (registerURL sampleConfig) =
        RoundTrip.response ⟨200, nonceBody, none⟩ ∧
      unmarshalNonceResponse nonceBody ⟨[]⟩ = (⟨lit "n1"⟩, none)) ∧
    (main (world (reply 200 nonceBody) (reply 200 successBody)) sampleConfig).calls =
      [HttpCall.Get (lit "https://hs.example/_synapse/admin/v1/register"),
       HttpCall.Do ⟨lit "POST", lit "https://hs.example/_synapse/admin/v1/register",
        lit ("\x7b\"nonce\":\"n1\",\"username\":\"bob\",\"displayname\":\"Bob B\"," ++
          "\"password\":\"pw\",\"admin\":false," ++
          "\"mac\":\"37e395d61b14e29a38228ea751910ffd50cb4c21\"\x7d")⟩] ∧
    jsonParse
        (lit ("\x7b\"nonce\":\"n1\",\"username\":\"bob\",\"displayname\":\"Bob B\"," ++
          "\"password\":\"pw\",\"admin\":false," ++
          "\"mac\":\"37e395d61b14e29a38228ea751910ffd50cb4c21\"\x7d")) =
      some (JValue.object
        [(lit "nonce", JValue.string (lit "n1")), (lit "username", JValue.string (lit "bob")),
         (lit "displayname", JValue.string (lit "Bob B")),
         (lit "password", JValue.string (lit "pw")), (lit "admin", JValue.bool false),
         (lit "mac", JValue.string (lit "37e395d61b14e29a38228ea751910ffd50cb4c21"))]) ∧
    (escapingConfig.complete ∧ ValidUTF8 escapingConfig.password) ∧
    (main (world (reply 200 nonceBody) (reply 200 successBody)) escapingConfig).calls =
      [HttpCall.Get (lit "https://hs.example/_synapse/admin/v1/register"),
       HttpCall.Do ⟨lit "POST", lit "https://hs.example/_synapse/admin/v1/register",
        lit ("\x7b\"nonce\":\"n1\",\"username\":\"bob\",\"displayname\":\"Bob B\"," ++
          "\"password\":\"p\\\"w\\u003c") ++ [0xC3, 0xA9] ++
        lit ("\",\"admin\":false," ++
          "\"mac\":\"3bbcb2ec29d2ed97f56a1ac58af2e2541ff85592\"\x7d")⟩] ∧
    jsonParse
        (lit ("\x7b\"nonce\":\"n1\",\"username\":\"bob\",\"displayname\":\"Bob B\"," ++
          "\"password\":\"p\\\"w\\u003c") ++ [0xC3, 0xA9] ++
        lit ("\",\"admin\":false," ++
          "\"mac\":\"3bbcb2ec29d2ed97f56a1ac58af2e2541ff85592\"\x7d")) =
      some (JValue.object
        [(lit "nonce", JValue.string (lit "n1")), (lit "username", JValue.string (lit "bob")),
         (lit "displayname", JValue.string (lit "Bob B")),
         (lit "password", JValue.string [0x70, 0x22, 0x77, 0x3C, 0xC3, 0xA9]),
         (lit "admin", JValue.bool false),
         (lit "mac", JValue.string (lit "3bbcb2ec29d2ed97f56a1ac58af2e2541ff85592"))]) := by
  have vu : ValidUTF8 sampleConfig.username := ⟨lit "bob", by decide, by decide⟩
  have vd : ValidUTF8 sampleConfig.displayName := ⟨lit "Bob B", by decide, by decide⟩
  have vp : ValidUTF8 sampleConfig.password := ⟨lit "pw", by decide, by decide⟩
  have vq : ValidUTF8 escapingConfig.password :=
    ⟨[0x70, 0x22, 0x77, 0x3C, 0xE9], by decide, by decide⟩
  have hA := main_posts_signed_request (world (reply 200 nonceBody) (reply 200 successBody))
    sampleConfig nonceBody (lit "n1") (by decide) vu vd vp (by decide) (by decide)
  have hB := main_posts_signed_request (world (reply 200 nonceBody) (reply 200 successBody))
    escapingConfig nonceBody (lit "n1") (by decide) vu vd vq (by decide) (by decide)
  have mA : hexEncodeToString (HMAC_SHA1 sampleConfig.secret
      (lit "n1" ++ [0x00] ++ sampleConfig.username ++ [0x00] ++ sampleConfig.password ++
        [0x00] ++ lit "notadmin")) = lit "37e395d61b14e29a38228ea751910ffd50cb4c21" := by
    decide
  have mB : hexEncodeToString (HMAC_SHA1 escapingConfig.secret
      (lit "n1" ++ [0x00] ++ escapingConfig.username ++ [0x00] ++ escapingConfig.password ++
        [0x00] ++ lit "notadmin")) = lit "3bbcb2ec29d2ed97f56a1ac58af2e2541ff85592" := by
    decide
  rw [mA] at hA
  rw [mB] at hB
  refine ⟨⟨by decide, vu, vd, vp, by decide, by decide, by decide⟩, ?_, ?_,
    ⟨by decide, vq⟩, ?_, ?_⟩
  · exact hA.1.trans (by decide)
  · have e : marshalRegisterRequest ⟨lit "n1", sampleConfig.username,
        sampleConfig.displayName, sampleConfig.password, false,
        lit "37e395d61b14e29a38228ea751910ffd50cb4c21"⟩ =
        lit ("\x7b\"nonce\":\"n1\",\"username\":\"bob\",\"displayname\":\"Bob B\"," ++
          "\"password\":\"pw\",\"admin\":false," ++
          "\"mac\":\"37e395d61b14e29a38228ea751910ffd50cb4c21\"\x7d") := by decide
    rw [← e]
    exact hA.2.1
  · exact hB.1.trans (by decide)
  · have e : marshalRegisterRequest ⟨lit "n1", escapingConfig.username,
        escapingConfig.displayName, escapingConfig.password, false,
        lit "3bbcb2ec29d2ed97f56a1ac58af2e2541ff85592"⟩ =
        lit ("\x7b\"nonce\":\"n1\",\"username\":\"bob\",\"displayname\":\"Bob B\"," ++
          "\"password\":\"p\\\"w\\u003c") ++ [0xC3, 0xA9] ++
        lit ("\",\"admin\":false," ++
          "\"mac\":\"3bbcb2ec29d2ed97f56a1ac58af2e2541ff85592\"\x7d") := by decide
    rw [← e]
    exact hB.2.1

/-- C5: whenever the fetch fails (transport error, read error, status other
than 200, or a body that does not decode), the run ends in failure and no POST,
indeed no `Do` call at all, is made. -/
theorem fetch_failure_no_post (w : World) (c : Config) (h : fetchSucceeded w c = false) :
    (main w c).outcome.exitCode ≠ 0 ∧ posts (main w c).calls = [] ∧
    ∀ req, HttpCall.Do req ∉ (main w c).calls := by
  by_cases hc : c.complete
  · rw [main_complete w c hc]
    unfold fetchSucceeded at h
    cases hg : httpGet w (registerURL c) with
    | failure msg => simp [Outcome.exitCode, posts]
    | failureWithResponse res msg => simp [Outcome.exitCode, posts]
    | response res =>
      rw [hg] at h
      simp only at h ⊢
      cases hr : res.readErr with
      | some msg => simp [Outcome.exitCode, posts]
      | none =>
        simp only
        by_cases hs : res.StatusCode ≠ 200
        · rw [if_pos hs]; simp [Outcome.exitCode, posts]
        · rw [if_neg hs]
          cases he : (unmarshalNonceResponse res.body ⟨[]⟩).2 with
          | some e => simp [Outcome.exitCode, posts]
          | none =>
            exfalso
            have hs2 : res.StatusCode = 200 := by omega
            simp [hr, hs2, he] at h
  · rw [main_incomplete w c hc]
    simp [Outcome.exitCode, posts]

/-- C5 at a fetch answered with status 500. -/
theorem fetch_failure_no_post_witness :
    fetchSucceeded (world (reply 500 (lit "oops")) (reply 200 successBody)) sampleConfig = false ∧
    (main (world (reply 500 (lit "oops")) (reply 200 successBody)) sampleConfig).outcome.exitCode
      ≠ 0 ∧
    posts (main (world (reply 500 (lit "oops")) (reply 200 successBody)) sampleConfig).calls = [] :=
  ⟨by decide,
    (fetch_failure_no_post (world (reply 500 (lit "oops")) (reply 200 successBody))
      sampleConfig (by decide)).1,
    (fetch_failure_no_post (world (reply 500 (lit "oops")) (reply 200 successBody))
      sampleConfig (by decide)).2.1⟩

/-- C6 fails as stated: a response with status 500 whose body cannot be read to
the end ends the run in `log.Fatalln` on the read error, not in a ProtocolError
with the body; and a fetch that returns a 302 response together with a
redirect error ends in `log.Fatalln` on that error. -/
theorem status_gating_counterexample :
    main (world (RoundTrip.response ⟨500, lit "par", some (lit "unexpected EOF")⟩)
        (reply 200 successBody)) sampleConfig =
      ⟨Outcome.fatalln (error.read (lit "unexpected EOF")),
        [HttpCall.Get (registerURL sampleConfig)]⟩ ∧
    (main (world (RoundTrip.response ⟨500, lit "par", some (lit "unexpected EOF")⟩)
        (reply 200 successBody)) sampleConfig).outcome.isProtocolError (lit "par") = false ∧
    main (world (RoundTrip.failureWithResponse
          ⟨302, [], some (lit "http: read on closed response body")⟩
          (lit "stopped after 10 redirects"))
        (reply 200 successBody)) sampleConfig =
      ⟨Outcome.fatalln (error.transport (lit "stopped after 10 redirects")),
        [HttpCall.Get (registerURL sampleConfig)]⟩ ∧
    (main (world (RoundTrip.failureWithResponse
          ⟨302, [], some (lit "http: read on closed response body")⟩
          (lit "stopped after 10 redirects"))
        (reply 200 successBody)) sampleConfig).outcome.isProtocolError [] = false :=
  ⟨by decide, by decide, by decide, by decide⟩

/-- C6, amended: a response with a status other than 200 that the HTTP client
returns without error and whose body is read without error ends the run in
`log.Fatalf` with the raw response body as the diagnostic text; when reading
the body fails the run ends in `log.Fatalln` on the read error, whatever the
status; a fetch that returns a response together with an error ends in
`log.Fatalln` on that error.  On the submit the client's error is not looked
at, so a response returned next to an error is treated like any other.  In
every one of these cases no further step executes: after the fetch the GET is
the only call, after the submit nothing is decoded or reported as success. -/
theorem status_gating (w : World) (c : Config) (res : Response) (hc : c.complete) :
    (httpGet w (registerURL c) = RoundTrip.response res →
      (res.readErr = none → res.StatusCode ≠ 200 →
        main w c = ⟨Outcome.fatalf "body: %s" res.body, [HttpCall.Get (registerURL c)]⟩ ∧
        (main w c).outcome.isProtocolError res.body = true) ∧
      (∀ msg, res.readErr = some msg →
        main w c = ⟨Outcome.fatalln (error.read msg), [HttpCall.Get (registerURL c)]⟩)) ∧
    (∀ msg, httpGet w (registerURL c) = RoundTrip.failureWithResponse res msg →
      main w c = ⟨Outcome.fatalln (error.transport msg), [HttpCall.Get (registerURL c)]⟩) ∧
    (∀ body n, httpGet w (registerURL c) = RoundTrip.response ⟨200, body, none⟩ →
      unmarshalNonceResponse body ⟨[]⟩ = (⟨n⟩, none) →
      (clientDo w (submitCall c n) = RoundTrip.response res ∨
        ∃ msg, clientDo w (submitCall c n) = RoundTrip.failureWithResponse res msg) →
      (res.readErr = none → res.StatusCode ≠ 200 →
        main w c = ⟨Outcome.fatalf "failure: %s" res.body,
          [HttpCall.Get (registerURL c), HttpCall.Do (submitCall c n)]⟩ ∧
        (main w c).outcome.isProtocolError res.body = true) ∧
      (∀ msg, res.readErr = some msg →
        main w c = ⟨Outcome.fatalln (error.read msg),
          [HttpCall.Get (registerURL c), HttpCall.Do (submitCall c n)]⟩)) := by
  refine ⟨?_, ?_, ?_⟩
  · intro hg
    constructor
    · intro hr hs
      have hm : main w c =
          ⟨Outcome.fatalf "body: %s" res.body, [HttpCall.Get (registerURL c)]⟩ := by
        rw [main_complete w c hc, hg]
        simp only [hr, if_pos hs]
      rw [hm]
      exact ⟨rfl, by simp [Outcome.isProtocolError]⟩
    · intro msg hr
      rw [main_complete w c hc, hg]
      simp only [hr]
  · intro msg hg
    rw [main_complete w c hc, hg]
  · intro body n hg hdec hdo
    have hm := main_fetched w c body n hc hg hdec
    rw [mainSubmit_any_response w _ _ res hdo] at hm
    constructor
    · intro hr hs
      have hm2 : main w c = ⟨Outcome.fatalf "failure: %s" res.body,
          [HttpCall.Get (registerURL c), HttpCall.Do (submitCall c n)]⟩ := by
        rw [hm]
        simp only [hr, if_pos hs]
      rw [hm2]
      exact ⟨rfl, by simp [Outcome.isProtocolError]⟩
    · intro msg hr
      rw [hm]
      simp only [hr]

/-- C6, amended, at a fetch answered 500, a fetch answered 500 with a broken
body, a submit answered 403 and a submit answered 200 with a broken body. -/
theorem status_gating_witness :
    sampleConfig.complete ∧
    main (world (reply 500 (lit "oops")) (reply 200 successBody)) sampleConfig =
      ⟨Outcome.fatalf "body: %s" (lit "oops"), [HttpCall.Get (registerURL sampleConfig)]⟩ ∧
    main (world (RoundTrip.response ⟨500, lit "par", some (lit "unexpected EOF")⟩)
        (reply 200 successBody)) sampleConfig =
      ⟨Outcome.fatalln (error.read (lit "unexpected EOF")),
        [HttpCall.Get (registerURL sampleConfig)]⟩ ∧
    main (world (reply 200 nonceBody) (reply 403 (lit "denied"))) sampleConfig =
      ⟨Outcome.fatalf "failure: %s" (lit "denied"),
        [HttpCall.Get (registerURL sampleConfig),
         HttpCall.Do (submitCall sampleConfig (lit "n1"))]⟩ ∧
    main (world (reply 200 nonceBody)
        (RoundTrip.response ⟨200, lit "par", some (lit "unexpected EOF")⟩)) sampleConfig =
      ⟨Outcome.fatalln (error.read (lit "unexpected EOF")),
        [HttpCall.Get (registerURL sampleConfig),
         HttpCall.Do (submitCall sampleConfig (lit "n1"))]⟩ :=
  ⟨by decide,
   ((status_gating (world (reply 500 (lit "oops")) (reply 200 successBody)) sampleConfig
      ⟨500, lit "oops", none⟩ (by decide)).1 (by decide)).1 rfl (by decide) |>.1,
   ((status_gating (world (RoundTrip.response ⟨500, lit "par", some (lit "unexpected EOF")⟩)
      (reply 200 successBody)) sampleConfig ⟨500, lit "par", some (lit "unexpected EOF")⟩
      (by decide)).1 (by decide)).2 (lit "unexpected EOF") rfl,
   ((status_gating (world (reply 200 nonceBody) (reply 403 (lit "denied"))) sampleConfig
      ⟨403, lit "denied", none⟩ (by decide)).2.2 nonceBody (lit "n1")
      (by decide) (by decide) (Or.inl (by decide))).1 rfl (by decide) |>.1,
   ((status_gating (world (reply 200 nonceBody)
      (RoundTrip.response ⟨200, lit "par", some (lit "unexpected EOF")⟩)) sampleConfig
      ⟨200, lit "par", some (lit "unexpected EOF")⟩ (by decide)).2.2 nonceBody (lit "n1")
      (by decide) (by decide) (Or.inl (by decide))).2 (lit "unexpected EOF") rfl⟩

/-- C7 fails on the code: with the fetch answered and the transport failing on
the submit, the run does not end in `log.Fatalln` on the transport error; the
unchecked nil response is read and the process panics.  The same failure on
the fetch is reported as a transport error. -/
theorem submit_transport_failure_panics :
    main (world (reply 200 nonceBody) (RoundTrip.failure (lit "connection refused")))
        sampleConfig =
      ⟨Outcome.nilDereference,
        [HttpCall.Get (registerURL sampleConfig),
         HttpCall.Do (submitCall sampleConfig (lit "n1"))]⟩ ∧
    (main (world (reply 200 nonceBody) (RoundTrip.failure (lit "connection refused")))
        sampleConfig).outcome.isTransportError (lit "connection refused") = false ∧
    (main (world (RoundTrip.failure (lit "connection refused")) (reply 200 successBody))
        sampleConfig).outcome.isTransportError (lit "connection refused") = true := by
  have hm : main (world (reply 200 nonceBody) (RoundTrip.failure (lit "connection refused")))
      sampleConfig = ⟨Outcome.nilDereference,
        [HttpCall.Get (registerURL sampleConfig),
         HttpCall.Do (submitCall sampleConfig (lit "n1"))]⟩ :=
    (main_fetched _ sampleConfig nonceBody (lit "n1") (by decide) (by decide) (by decide)).trans
      (mainSubmit_failure _ _ _ (lit "connection refused") (by decide))
  refine ⟨hm, ?_, by decide⟩
  rw [hm]
  decide

/-- C8 fails as stated: a 200 body that is the empty JSON object, on the fetch
or on the submit, does not end the run in a DecodeError.  On the fetch the
request is signed and submitted with the empty nonce; on the submit a success
record with empty fields is reported. -/
theorem missing_fields_counterexample :
    jsonParse emptyObject = some (JValue.object []) ∧
    (main (world (reply 200 emptyObject) (reply 200 successBody)) sampleConfig).outcome.isDecodeError
      = false ∧
    (main (world (reply 200 emptyObject) (reply 200 successBody)) sampleConfig).calls =
      [HttpCall.Get (lit "https://hs.example/_synapse/admin/v1/register"),
       HttpCall.Do ⟨lit "POST", lit "https://hs.example/_synapse/admin/v1/register",
        lit ("\x7b\"nonce\":\"\",\"username\":\"bob\",\"displayname\":\"Bob B\"," ++
          "\"password\":\"pw\",\"admin\":false," ++
          "\"mac\":\"83f771789409c1a29c47e1a9968bcfe8470d9c8a\"\x7d")⟩] ∧
    (main (world (reply 200 nonceBody) (reply 200 emptyObject)) sampleConfig).outcome =
      Outcome.success ⟨[], [], [], []⟩ :=
  ⟨by rfl, by decide, by decide, by decide⟩

/-- C8, amended: on a 200 response the phase ends in a DecodeError exactly
when the body is rejected by the rule `decodeRejects`: it is not valid JSON, or
a JSON document other than an object or `null`, or an object in which an
expected member holds something other than a string or `null`.  On the fetch
the GET is then the only call; on the submit no success is reported.  Every
other body is accepted, also one that lacks expected members: a field the body
has no member for stays the empty string.  On the fetch the run then signs and
submits the request for the decoded nonce, the empty nonce when the body has
no `nonce` member; on the submit the decoded record is reported as success,
with each absent field empty. -/
theorem decode_gating (w : World) (c : Config) (body : Bytes) (hc : c.complete)
    (hget : httpGet w (registerURL c) = RoundTrip.response ⟨200, body, none⟩) :
    (decodeRejects nonceResponseTags body = true →
      ∃ e, main w c = ⟨Outcome.fatalln (error.json e), [HttpCall.Get (registerURL c)]⟩) ∧
    (decodeRejects nonceResponseTags body = false →
      ∃ n, unmarshalNonceResponse body ⟨[]⟩ = (⟨n⟩, none) ∧
        (main w c).calls = [HttpCall.Get (registerURL c), HttpCall.Do (submitCall c n)] ∧
        (lacksField nonceResponseTags body 0 → n = [])) ∧
    (∀ n body2, unmarshalNonceResponse body ⟨[]⟩ = (⟨n⟩, none) →
      clientDo w (submitCall c n) = RoundTrip.response ⟨200, body2, none⟩ →
      (decodeRejects registerResponseTags body2 = true →
        ∃ e, main w c = ⟨Outcome.fatalln (error.json e),
          [HttpCall.Get (registerURL c), HttpCall.Do (submitCall c n)]⟩) ∧
      (decodeRejects registerResponseTags body2 = false →
        ∃ r, main w c = ⟨Outcome.success r,
            [HttpCall.Get (registerURL c), HttpCall.Do (submitCall c n)]⟩ ∧
          (lacksField registerResponseTags body2 0 → r.AccessToken = []) ∧
          (lacksField registerResponseTags body2 1 → r.UserID = []) ∧
          (lacksField registerResponseTags body2 2 → r.HomeServer = []) ∧
          (lacksField registerResponseTags body2 3 → r.DeviceID = []))) := by
  refine ⟨?_, ?_, ?_⟩
  · intro hrej
    have he : (unmarshalNonceResponse body ⟨[]⟩).2 ≠ none := by
      intro h
      have := (unmarshalStruct_error_iff nonceResponseTags body [[]]).mp h
      rw [hrej] at this
      cases this
    rw [main_complete w c hc, hget]
    cases hv : (unmarshalNonceResponse body ⟨[]⟩).2 with
    | none => exact absurd hv he
    | some e => exact ⟨e, by simp [hv]⟩
  · intro hok
    have he : (unmarshalNonceResponse body ⟨[]⟩).2 = none :=
      (unmarshalStruct_error_iff nonceResponseTags body [[]]).mpr hok
    have hu : unmarshalNonceResponse body ⟨[]⟩ =
        (⟨(unmarshalNonceResponse body ⟨[]⟩).1.Nonce⟩, none) := by
      rw [← he]
    refine ⟨(unmarshalNonceResponse body ⟨[]⟩).1.Nonce, hu, ?_, ?_⟩
    · rw [main_fetched w c body _ hc hget hu, mainSubmit_calls]
    · intro hl
      exact unmarshalStruct_lacksField nonceResponseTags body [[]] 0 hl
  · intro n body2 hdec hdo
    have hm := main_fetched w c body n hc hget hdec
    rw [mainSubmit_response w _ _ ⟨200, body2, none⟩ hdo rfl] at hm
    simp only [ne_eq, not_true_eq_false, if_false] at hm
    constructor
    · intro hrej
      have he : (unmarshalRegisterResponse body2 ⟨[], [], [], []⟩).2 ≠ none := by
        intro h
        have := (unmarshalStruct_error_iff registerResponseTags body2 [[], [], [], []]).mp h
        rw [hrej] at this
        cases this
      cases hv : (unmarshalRegisterResponse body2 ⟨[], [], [], []⟩).2 with
      | none => exact absurd hv he
      | some e => exact ⟨e, by rw [hm, hv]⟩
    · intro hok
      have he : (unmarshalRegisterResponse body2 ⟨[], [], [], []⟩).2 = none :=
        (unmarshalStruct_error_iff registerResponseTags body2 [[], [], [], []]).mpr hok
      refine ⟨(unmarshalRegisterResponse body2 ⟨[], [], [], []⟩).1, ?_, ?_, ?_, ?_, ?_⟩
      · rw [hm, he]
      · intro hl
        exact unmarshalStruct_lacksField registerResponseTags body2 [[], [], [], []] 0 hl
      · intro hl
        exact unmarshalStruct_lacksField registerResponseTags body2 [[], [], [], []] 1 hl
      · intro hl
        exact unmarshalStruct_lacksField registerResponseTags body2 [[], [], [], []] 2 hl
      · intro hl
        exact unmarshalStruct_lacksField registerResponseTags body2 [[], [], [], []] 3 hl

/-- C8, amended, at bodies that lack members (the empty object and `null` on
the fetch, an object with only `access_token` on the submit) and at a body that
is rejected (a number as the nonce). -/
theorem decode_gating_witness :
    sampleConfig.complete ∧
    (decodeRejects nonceResponseTags emptyObject = false ∧
      (main (world (reply 200 emptyObject) (reply 200 successBody)) sampleConfig).calls =
        [HttpCall.Get (registerURL sampleConfig), HttpCall.Do (submitCall sampleConfig [])]) ∧
    (decodeRejects nonceResponseTags nullBody = false ∧
      (main (world (reply 200 nullBody) (reply 200 successBody)) sampleConfig).calls =
        [HttpCall.Get (registerURL sampleConfig), HttpCall.Do (submitCall sampleConfig [])]) ∧
    (decodeRejects nonceResponseTags numberNonceBody = true ∧
      main (world (reply 200 numberNonceBody) (reply 200 successBody)) sampleConfig =
        ⟨Outcome.fatalln (error.json (JsonError.UnmarshalTypeError "number")),
          [HttpCall.Get (registerURL sampleConfig)]⟩) ∧
    (decodeRejects registerResponseTags tokenOnlyBody = false ∧
      main (world (reply 200 nonceBody) (reply 200 tokenOnlyBody)) sampleConfig =
        ⟨Outcome.success ⟨lit "t", [], [], []⟩,
          [HttpCall.Get (registerURL sampleConfig),
           HttpCall.Do (submitCall sampleConfig (lit "n1"))]⟩) := by
  refine ⟨by decide, ⟨by decide, ?_⟩, ⟨by decide, ?_⟩, ⟨by decide, ?_⟩, ⟨by decide, ?_⟩⟩
  · obtain ⟨n, _, hcalls, hn⟩ :=
      (decode_gating (world (reply 200 emptyObject) (reply 200 successBody)) sampleConfig
        emptyObject (by decide) (by decide)).2.1 (by decide)
    rw [hn (Or.inr ⟨[], by rfl, by simp⟩)] at hcalls
    exact hcalls
  · obtain ⟨n, _, hcalls, hn⟩ :=
      (decode_gating (world (reply 200 nullBody) (reply 200 successBody)) sampleConfig
        nullBody (by decide) (by decide)).2.1 (by decide)
    rw [hn (Or.inl (by rfl))] at hcalls
    exact hcalls
  · obtain ⟨e, he⟩ :=
      (decode_gating (world (reply 200 numberNonceBody) (reply 200 successBody)) sampleConfig
        numberNonceBody (by decide) (by decide)).1 (by decide)
    rw [he]
    have h2 : (main (world (reply 200 numberNonceBody) (reply 200 successBody))
        sampleConfig).outcome =
        Outcome.fatalln (error.json (JsonError.UnmarshalTypeError "number")) := by decide
    rw [he] at h2
    simp only [Outcome.fatalln.injEq, error.json.injEq] at h2
    rw [h2]
  · obtain ⟨r, hr, _, h1, h2, h3⟩ :=
      ((decode_gating (world (reply 200 nonceBody) (reply 200 tokenOnlyBody)) sampleConfig
        nonceBody (by decide) (by decide)).2.2 (lit "n1") tokenOnlyBody (by decide)
          (by decide)).2 (by decide)
    rw [hr]
    have h0 : (main (world (reply 200 nonceBody) (reply 200 tokenOnlyBody))
        sampleConfig).outcome = Outcome.success ⟨lit "t", [], [], []⟩ := by decide
    rw [hr] at h0
    simp only [Outcome.success.injEq] at h0
    rw [h0]

/-- C9: when at least one of homeserver URL, shared secret, username, password
and display name is empty, `main` prints the usage, exits with status 1 and
makes no HTTP call; when all five are non-empty the first thing it does is the
GET of the register endpoint. -/
theorem config_gate (w : World) (c : Config) :
    ((c.homeserverURL = [] ∨ c.secret = [] ∨ c.username = [] ∨ c.password = [] ∨
        c.displayName = []) →
      main w c = ⟨Outcome.usage, []⟩ ∧ (main w c).outcome.exitCode = 1) ∧
    ((c.homeserverURL ≠ [] ∧ c.secret ≠ [] ∧ c.username ≠ [] ∧ c.password ≠ [] ∧
        c.displayName ≠ []) →
      (main w c).calls.head? =
        some (HttpCall.Get (c.homeserverURL ++ lit "/_synapse/admin/v1/register")) ∧
      (main w c).outcome ≠ Outcome.usage) := by
  constructor
  · intro h
    have hn : ¬ c.complete := by
      unfold Config.complete
      intro hc
      rcases h with h | h | h | h | h
      · exact hc.1 h
      · exact hc.2.1 h
      · exact hc.2.2.1 h
      · exact hc.2.2.2.1 h
      · exact hc.2.2.2.2 h
    rw [main_incomplete w c hn]
    exact ⟨rfl, rfl⟩
  · intro h
    exact main_complete_head w c h

/-- C9 at a configuration without a secret and at a complete one. -/
theorem config_gate_witness :
    main (world (reply 200 nonceBody) (reply 200 successBody))
        ⟨lit "https://hs.example", [], lit "bob", lit "pw", lit "Bob B"⟩ =
      ⟨Outcome.usage, []⟩ ∧
    (main (world (reply 200 nonceBody) (reply 200 successBody)) sampleConfig).calls.head? =
      some (HttpCall.Get (lit "https://hs.example/_synapse/admin/v1/register")) :=
  ⟨((config_gate (world (reply 200 nonceBody) (reply 200 successBody))
      ⟨lit "https://hs.example", [], lit "bob", lit "pw", lit "Bob B"⟩).1
        (Or.inr (Or.inl rfl))).1,
   ((config_gate (world (reply 200 nonceBody) (reply 200 successBody)) sampleConfig).2
      (by decide)).1⟩

end MatrixShareg
